import Mathlib

/-!
Verification development for the social-transit network-analysis program.

The C++ sources (network.cpp, objective.hpp, driver.cpp) are shallowly
embedded below.  Machine doubles are modelled as exact rationals (ℚ), with
an explicit two-point extension (EDouble) where the code can produce the
IEEE value +infinity.  The imperative construction loops of network.cpp
become folds over lists of parsed records; an input file that failed to
open is modelled as a missing (none) record list, matching the code's
print-and-skip behaviour.  Out-of-range vector subscripts - undefined
behaviour in C++ - are modelled by the constructor returning none.

The file network.hpp and the implementation file of objective.hpp are not
part of the available sources; the constants and behaviours they define
are modelled from the specification and are marked as such in their doc
comments.
-/

namespace SocialTransit

/-- Pointwise update of the i-th entry of a list, identity when out of range. -/
def updNth (l : List α) (i : Nat) (f : α → α) : List α :=
  match l, i with
  | [], _ => []
  | a :: as, 0 => f a :: as
  | a :: as, n + 1 => a :: updNth as n f

/-- Positions (offset by a base index) of the records satisfying a predicate,
in order of appearance. -/
def posIdx (p : α → Bool) : Nat → List α → List Nat
  | _, [] => []
  | n, r :: rs => (if p r then [n] else []) ++ posIdx p (n + 1) rs

/-- Modelled from the spec: node-kind constants defined in the absent header
network.hpp.  Only their pairwise distinctness matters to the code under
analysis (one switch case per kind). -/
def STOP_NODE : Int := 0

/-- Modelled from the spec: boarding-node kind constant from network.hpp. -/
def BOARDING_NODE : Int := 1

/-- Modelled from the spec: population-node kind constant from network.hpp. -/
def POPULATION_NODE : Int := 2

/-- Modelled from the spec: facility-node kind constant from network.hpp. -/
def FACILITY_NODE : Int := 3

/-- Modelled from the spec: access-arc kind constant from network.hpp. -/
def ACCESS_ARC : Int := 0

/-- Modelled from the spec: line (in-vehicle) arc kind constant from network.hpp. -/
def LINE_ARC : Int := 1

/-- Modelled from the spec: boarding-arc kind constant from network.hpp. -/
def BOARDING_ARC : Int := 2

/-- Modelled from the spec: alighting-arc kind constant from network.hpp. -/
def ALIGHTING_ARC : Int := 3

/-- Modelled from the spec: walking-arc kind constant from network.hpp. -/
def WALKING_ARC : Int := 4

/-- Modelled from the spec: the "small positive epsilon" added to boarding and
alighting arc costs, defined in the absent header network.hpp.  Only its
strict positivity is relied upon. -/
def EPSILON : ℚ := 1 / 1000000

/-- Node record of the network (network.hpp / network.cpp): an id, a value,
and the role-based adjacency lists filled in by the Network constructor
(arc indices into the network's arc arena). -/
structure Node where
  id : Int
  value : ℚ
  access_out : List Nat
  core_out : List Nat
  core_in : List Nat
deriving DecidableEq

/-- Arc record of the network (network.hpp / network.cpp).  The C++ object
stores tail/head as Node pointers obtained from nodes[arc_tail]; the
embedding stores the corresponding indices into the node collection. -/
structure Arc where
  id : Int
  tail : Nat
  head : Nat
  cost : ℚ
  line : Int
  boarding : Bool
  flow : ℚ
deriving DecidableEq

/-- Line record of the network (network.hpp / network.cpp).  The stops,
boarding and in_vehicle lists hold indices into the network's node and arc
collections respectively. -/
structure Line where
  circuit : ℚ
  seating : ℚ
  day_fraction : ℚ
  day_horizon : ℚ
  fleet : Int
  name : String
  stops : List Nat
  boarding : List Nat
  in_vehicle : List Nat
deriving DecidableEq

/-- The Network object: owning collections of nodes, arcs and lines, plus the
role-based index collections filled by the constructor.  The C++ role lists
hold pointers into one heap of records; the embedding keeps one arena per
record kind (nodes, arcs, lines) and role lists of indices into it. -/
structure Network where
  nodes : List Node
  arcs : List Arc
  lines : List Line
  stop_nodes : List Nat
  boarding_nodes : List Nat
  population_nodes : List Nat
  facility_nodes : List Nat
  core_nodes : List Nat
  access_arcs : List Nat
  core_arcs : List Nat
  line_arcs : List Nat
  walking_arcs : List Nat
deriving DecidableEq

/-- One parsed row of the node data file (columns read by network.cpp:
ID, Type, Value; Name is skipped). -/
structure NodeRec where
  id : Int
  type : Int
  value : ℚ
deriving DecidableEq

/-- One parsed row of the vehicle data file (columns read: Type, Seating). -/
structure VehicleRec where
  type : Int
  seating : ℚ
deriving DecidableEq

/-- One parsed row of the transit data file (columns read: Name, Type,
Fleet, Circuit, Scaling). -/
structure TransitRec where
  vehicle_type : Int
  fleet : Int
  circuit : ℚ
  day_fraction : ℚ
  name : String
deriving DecidableEq

/-- One parsed row of the arc data file (columns read: ID, Type, Line,
Tail, Head, Time). -/
structure ArcRec where
  id : Int
  type : Int
  line : Int
  tail : Int
  head : Int
  time : ℚ
deriving DecidableEq

/-- One parsed row of the initial flow data file (columns read: ID, Flow). -/
structure FlowRec where
  id : Int
  flow : ℚ
deriving DecidableEq

/-- Whether an Int subscript is a valid index into a collection of length n
(C++ vector subscripting outside this range is undefined behaviour). -/
def validIdx (i : Int) (n : Nat) : Prop := 0 ≤ i ∧ i < (n : Int)

instance (i : Int) (n : Nat) : Decidable (validIdx i n) := by
  unfold validIdx; infer_instance

/-- Node-file loop of the Network constructor: the accumulated node and
role lists. -/
structure NodeState where
  nodes : List Node
  stop_nodes : List Nat
  boarding_nodes : List Nat
  population_nodes : List Nat
  facility_nodes : List Nat
  core_nodes : List Nat
deriving DecidableEq

/-- One iteration of the node-file loop (network.cpp): append a new Node and
add its index to the role lists selected by the record's type; a type
matching no case joins only the main node list. -/
def addNode (s : NodeState) (r : NodeRec) : NodeState :=
  let idx := s.nodes.length
  let s1 := { s with nodes := s.nodes ++ [⟨r.id, r.value, [], [], []⟩] }
  if r.type = STOP_NODE then
    { s1 with stop_nodes := s1.stop_nodes ++ [idx], core_nodes := s1.core_nodes ++ [idx] }
  else if r.type = BOARDING_NODE then
    { s1 with boarding_nodes := s1.boarding_nodes ++ [idx], core_nodes := s1.core_nodes ++ [idx] }
  else if r.type = POPULATION_NODE then
    { s1 with population_nodes := s1.population_nodes ++ [idx] }
  else if r.type = FACILITY_NODE then
    { s1 with facility_nodes := s1.facility_nodes ++ [idx] }
  else s1

/-- The node-file reading loop of the Network constructor. -/
def buildNodes (recs : List NodeRec) : NodeState :=
  recs.foldl addNode ⟨[], [], [], [], [], []⟩

/-- The vehicle-file reading loop of the Network constructor: the
vehicle_seating map, with the C++ unordered_map operator[] default of 0 for
an absent key, later assignments overwriting earlier ones. -/
def buildSeating (recs : List VehicleRec) : Int → ℚ :=
  recs.foldl (fun m r => fun t => if t = r.type then r.seating else m t) (fun _ => 0)

/-- The transit-file reading loop of the Network constructor: one Line per
record, seating looked up in the vehicle_seating map, day_horizon taken
from the problem file. -/
def buildLines (horizon : ℚ) (seating : Int → ℚ) (recs : List TransitRec) : List Line :=
  recs.map (fun r => ⟨r.circuit, seating r.vehicle_type, r.day_fraction, horizon, r.fleet, r.name, [], [], []⟩)

/-- State threaded through the arc-file and flow-file loops of the Network
constructor. -/
structure BuildState where
  nodes : List Node
  lines : List Line
  arcs : List Arc
  access_arcs : List Nat
  core_arcs : List Nat
  line_arcs : List Nat
  walking_arcs : List Nat
deriving DecidableEq

/-- One iteration of the arc-file loop (network.cpp).  The C++ code
constructs the Arc, inserts it into the role lists selected by its type,
and then adds EPSILON to the shared object's cost for boarding/alighting
arcs; since all lists alias one heap object, the embedding applies the
EPSILON adjustment to the record before insertion.  The subscripts
nodes[arc_tail], nodes[arc_head] and lines[arc_line] are unchecked in C++
(undefined behaviour out of range), modelled as returning none. -/
def addArc (s : BuildState) (r : ArcRec) : Option BuildState :=
  if validIdx r.tail s.nodes.length ∧ validIdx r.head s.nodes.length then
    let tl := r.tail.toNat
    let hd := r.head.toNat
    let ai := s.arcs.length
    let a0 : Arc := ⟨r.id, tl, hd, r.time, r.line, decide (r.type = BOARDING_ARC), 0⟩
    let a : Arc :=
      if r.type = BOARDING_ARC ∨ r.type = ALIGHTING_ARC then
        { a0 with cost := a0.cost + EPSILON }
      else a0
    let s1 := { s with arcs := s.arcs ++ [a] }
    if r.type = ACCESS_ARC then
      some { s1 with
        access_arcs := s1.access_arcs ++ [ai],
        nodes := updNth s1.nodes tl (fun nd => { nd with access_out := nd.access_out ++ [ai] }) }
    else
      let s2 := { s1 with
        core_arcs := s1.core_arcs ++ [ai],
        nodes := updNth (updNth s1.nodes tl (fun nd => { nd with core_out := nd.core_out ++ [ai] }))
          hd (fun nd => { nd with core_in := nd.core_in ++ [ai] }) }
      if r.type = LINE_ARC then
        if validIdx r.line s2.lines.length then
          some { s2 with
            line_arcs := s2.line_arcs ++ [ai],
            lines := updNth s2.lines r.line.toNat (fun L => { L with in_vehicle := L.in_vehicle ++ [ai] }) }
        else none
      else if r.type = BOARDING_ARC then
        if validIdx r.line s2.lines.length then
          some { s2 with
            lines := updNth s2.lines r.line.toNat
              (fun L => { L with boarding := L.boarding ++ [ai], stops := L.stops ++ [tl] }) }
        else none
      else if r.type = WALKING_ARC then
        some { s2 with walking_arcs := s2.walking_arcs ++ [ai] }
      else some s2
  else none

/-- The arc-file reading loop of the Network constructor. -/
def buildArcs (s : BuildState) : List ArcRec → Option BuildState
  | [] => some s
  | r :: rs =>
    match addArc s r with
    | none => none
    | some s2 => buildArcs s2 rs

/-- One iteration of the flow-file loop (network.cpp): the subscript
core_arcs[arc_id] selects an arc by its position in the core arc list and
sets that arc's flow field; an out-of-range id is undefined behaviour in
C++, modelled as none. -/
def applyFlow (s : BuildState) (r : FlowRec) : Option BuildState :=
  if 0 ≤ r.id then
    match s.core_arcs[r.id.toNat]? with
    | some ai => some { s with arcs := updNth s.arcs ai (fun a => { a with flow := r.flow }) }
    | none => none
  else none

/-- The flow-file reading loop of the Network constructor. -/
def applyFlows (s : BuildState) : List FlowRec → Option BuildState
  | [] => some s
  | r :: rs =>
    match applyFlow s r with
    | none => none
    | some s2 => applyFlows s2 rs

/-- The Network constructor (network.cpp), over parsed file contents.  The
parameters follow the C++ constructor's order (node, arc, transit, vehicle,
problem, flow file); a file that failed to open is the none case and its
data is skipped, exactly as the code prints a message and moves on.  The
problem file contributes only the time horizon, defaulting to 1440. -/
def mkNetwork (nodeRecs : Option (List NodeRec)) (arcRecs : Option (List ArcRec))
    (transitRecs : Option (List TransitRec)) (vehicleRecs : Option (List VehicleRec))
    (problem : Option ℚ) (flowRecs : Option (List FlowRec)) : Option Network :=
  let horizon := problem.getD 1440
  let ns := buildNodes (nodeRecs.getD [])
  let seating := buildSeating (vehicleRecs.getD [])
  let lines := buildLines horizon seating (transitRecs.getD [])
  let s0 : BuildState := ⟨ns.nodes, lines, [], [], [], [], []⟩
  match buildArcs s0 (arcRecs.getD []) with
  | none => none
  | some s1 =>
    match applyFlows s1 (flowRecs.getD []) with
    | none => none
    | some s2 =>
      some ⟨s2.nodes, s2.arcs, s2.lines, ns.stop_nodes, ns.boarding_nodes,
        ns.population_nodes, ns.facility_nodes, ns.core_nodes,
        s2.access_arcs, s2.core_arcs, s2.line_arcs, s2.walking_arcs⟩

/-- Line frequency from current fleet size (network.cpp): fleet / circuit. -/
def Line.frequency (L : Line) : ℚ := (L.fleet : ℚ) / L.circuit

/-- Two-point extension of the machine doubles: a finite rational or the
IEEE value +infinity. -/
inductive EDouble where
  | fin : ℚ → EDouble
  | inf : EDouble
deriving DecidableEq

/-- Average line headway from current fleet size (network.cpp):
circuit / fleet for a positive fleet, INFINITY otherwise. -/
def Line.headway (L : Line) : EDouble :=
  if 0 < L.fleet then EDouble.fin (L.circuit / (L.fleet : ℚ)) else EDouble.inf

/-- Line capacity from current fleet size (network.cpp):
frequency times day_fraction times day_horizon times seating. -/
def Line.capacity (L : Line) : ℚ :=
  L.frequency * L.day_fraction * L.day_horizon * L.seating

/-- Addition on extended doubles: anything plus infinity is infinity. -/
def EDouble.add : EDouble → EDouble → EDouble
  | EDouble.fin a, EDouble.fin b => EDouble.fin (a + b)
  | _, _ => EDouble.inf

/-- Strict comparison on extended doubles: every finite value is below
infinity, infinity is below nothing. -/
def EDouble.blt : EDouble → EDouble → Bool
  | EDouble.fin a, EDouble.fin b => decide (a < b)
  | EDouble.fin _, EDouble.inf => true
  | EDouble.inf, _ => false

/-- One edge relaxation of a tentative-distance vector: improve the head's
entry through the arc when that strictly lowers it. -/
def relaxArc (d : List EDouble) (a : Arc) : List EDouble :=
  match d[a.tail]?, d[a.head]? with
  | some dt, some dh =>
    if EDouble.blt (EDouble.add dt (EDouble.fin a.cost)) dh then
      updNth d a.head (fun _ => EDouble.add dt (EDouble.fin a.cost))
    else d
  | _, _ => d

/-- One full relaxation round over the selected arc universe. -/
def relaxRound (arcs : List Arc) (d : List EDouble) : List EDouble :=
  arcs.foldl relaxArc d

/-- Iterated relaxation rounds. -/
def relaxN : Nat → List Arc → List EDouble → List EDouble
  | 0, _, d => d
  | k + 1, arcs, d => relaxN k arcs (relaxRound arcs d)

/-- Initial tentative distances: 0 at the source, +infinity elsewhere. -/
def initDist (n : Nat) (src : Nat) : List EDouble :=
  (List.range n).map (fun i => if i = src then EDouble.fin 0 else EDouble.inf)

/-- Modelled from the spec: the Shortest-Path Engine contract of
objective.hpp's stops_to_all_facilities, whose implementation file is not
among the sources.  The spec names Dijkstra over a configurable arc
universe with nonnegative costs and requires that unreached nodes get
distance = +infinity; the embedding computes the same minimum-cost
distances by n rounds of edge relaxation, which agrees with Dijkstra on
nonnegative costs and keeps every unreached node at +infinity. -/
def shortestDistances (n : Nat) (arcs : List Arc) (src : Nat) : List EDouble :=
  relaxN n arcs (initDist n src)

/-- One hop along an arc of the selected universe. -/
def ArcStep (arcs : List Arc) (u v : Nat) : Prop :=
  ∃ a ∈ arcs, a.tail = u ∧ a.head = v

/-- Reachability in the selected arc universe: the reflexive-transitive
closure of single arc hops. -/
def Reaches (arcs : List Arc) (src v : Nat) : Prop :=
  Relation.ReflTransGen (ArcStep arcs) src v

/-- Modelled from the spec: engine parameters of the Objective struct
(objective.hpp).  The gravity exponent is kept as an integer so that the
impedance power stays exactly computable over ℚ; the spec only requires it
to be strictly positive. -/
structure Objective where
  lowest_metrics : Nat
  gravity_exponent : Int
  multiplier : ℚ
deriving DecidableEq

/-- Modelled from the spec: the impedance function of the Gravity Metric
Aggregator; d to the power minus gravity_exponent for finite positive d,
with d = 0 and d = infinity contributing zero, excluded rather than
divided by zero. -/
def impedance (γ : Int) (d : EDouble) : ℚ :=
  match d with
  | EDouble.inf => 0
  | EDouble.fin q => if q = 0 then 0 else q ^ (-γ)

/-- Modelled from the spec: a facility's contribution to a stop's metric,
the facility's value weighted by the impedance of its distance. -/
def facilityContribution (γ : Int) (value : ℚ) (d : EDouble) : ℚ :=
  value * impedance γ d

/-- Insertion of one element into a list sorted by a boolean comparison. -/
def insertSorted (le : α → α → Bool) (x : α) : List α → List α
  | [] => [x]
  | y :: ys => if le x y then x :: y :: ys else y :: insertSorted le x ys

/-- Insertion sort by a boolean comparison. -/
def sortByLe (le : α → α → Bool) : List α → List α
  | [] => []
  | x :: xs => insertSorted le x (sortByLe le xs)

/-- Lexicographic order on (distance, facility id) pairs used for the
spec's deterministic bottom-k tie-break. -/
def distIdLe (p q : EDouble × Nat) : Bool :=
  p.1.blt q.1 || (p.1 = q.1 && p.2 ≤ q.2)

/-- Modelled from the spec: the index set K(s) of the Gravity Metric
Aggregator; all facility positions, or when lowest_metrics = k is below
the facility count, the k facility positions of smallest distance with
ties broken by ascending facility position. -/
def selectK (k : Nat) (fac_size : Nat) (ds : List EDouble) : List Nat :=
  if k < fac_size then
    ((sortByLe distIdLe ((List.range fac_size).map
      (fun j => (ds[j]?.getD EDouble.inf, j)))).take k).map Prod.snd
  else List.range fac_size

/-- Value of the facility at facility-list position j of the network
(0 when the position or node index is out of range). -/
def facValue (net : Network) (j : Nat) : ℚ :=
  ((net.facility_nodes[j]?.bind (fun f => net.nodes[f]?)).map Node.value).getD 0

/-- Modelled from the spec: stops_to_all_facilities of objective.hpp; the
distance row from the stop at stop-list position i to every facility, in
facility-list order, over the configured arc universe. -/
def stopToFacilities (net : Network) (univ : List Arc) (i : Nat) : List EDouble :=
  let src := (net.stop_nodes[i]?).getD 0
  let d := shortestDistances net.nodes.length univ src
  net.facility_nodes.map (fun f => (d[f]?).getD EDouble.inf)

/-- Modelled from the spec: stop_metric of objective.hpp; the multiplier
times the sum, over the selected facility positions K(s) in ascending
order, of the facility contributions. -/
def stop_metric (O : Objective) (net : Network) (univ : List Arc) (i : Nat) : ℚ :=
  let ds := stopToFacilities net univ i
  let K := selectK O.lowest_metrics net.facility_nodes.length ds
  O.multiplier * (K.foldl (fun acc j =>
    acc + facilityContribution O.gravity_exponent (facValue net j) ((ds[j]?).getD EDouble.inf)) 0)

/-- Modelled from the spec: all_metrics of objective.hpp; a dense sequence,
one entry per stop in stop-list order, entry i holding stop i's metric.
The parallel dispatch writes each result into its own pre-sized slot, so
the sequence is the same as this sequential map. -/
def all_metrics (O : Objective) (net : Network) (univ : List Arc) : List ℚ :=
  (List.range net.stop_nodes.length).map (fun i => stop_metric O net univ i)

/-- The Node built for a node-file record, before any adjacency is added. -/
def nodeOfRec (r : NodeRec) : Node := ⟨r.id, r.value, [], [], []⟩

/-- Whether a node record's type selects the stop role. -/
def isStopRec (r : NodeRec) : Bool := decide (r.type = STOP_NODE)

/-- Whether a node record's type selects the boarding role. -/
def isBoardingRec (r : NodeRec) : Bool := decide (r.type = BOARDING_NODE)

/-- Whether a node record's type selects the population role. -/
def isPopulationRec (r : NodeRec) : Bool := decide (r.type = POPULATION_NODE)

/-- Whether a node record's type selects the facility role. -/
def isFacilityRec (r : NodeRec) : Bool := decide (r.type = FACILITY_NODE)

/-- Whether a node record's type selects the core role (stop or boarding). -/
def isCoreRec (r : NodeRec) : Bool := decide (r.type = STOP_NODE ∨ r.type = BOARDING_NODE)

theorem updNth_length (l : List α) (i : Nat) (f : α → α) : (updNth l i f).length = l.length := by
  induction l generalizing i with
  | nil => rfl
  | cons a as ih =>
    cases i with
    | zero => rfl
    | succ n => simp [updNth, ih]

theorem getElem?_updNth (l : List α) (i j : Nat) (f : α → α) :
    (updNth l i f)[j]? = if i = j then (l[j]?).map f else l[j]? := by
  induction l generalizing i j with
  | nil => simp [updNth]
  | cons a as ih =>
    cases i with
    | zero =>
      cases j with
      | zero => simp [updNth]
      | succ m => simp [updNth]
    | succ n =>
      cases j with
      | zero => simp [updNth]
      | succ m => simpa [updNth] using ih n m

theorem mem_posIdx {p : α → Bool} {i : Nat} : ∀ {n : Nat} {rs : List α},
    (i ∈ posIdx p n rs ↔ n ≤ i ∧ ∃ r, rs[i - n]? = some r ∧ p r = true) := by
  intro n rs
  induction rs generalizing n with
  | nil => simp [posIdx]
  | cons r rs ih =>
    simp only [posIdx, List.mem_append]
    constructor
    · rintro (hmem | hmem)
      · have hp : p r = true ∧ i = n := by
          by_cases hpr : p r = true
          · simp [hpr] at hmem; exact ⟨hpr, hmem⟩
          · simp [hpr] at hmem
        obtain ⟨hp1, hp2⟩ := hp
        subst hp2
        exact ⟨le_refl i, r, by simp, hp1⟩
      · obtain ⟨hn, r2, hget, hp⟩ := ih.mp hmem
        refine ⟨by omega, r2, ?_, hp⟩
        have hd : i - n = (i - (n + 1)) + 1 := by omega
        rw [hd]
        simpa using hget
    · rintro ⟨hn, r2, hget, hp⟩
      by_cases hin : i = n
      · subst hin
        simp only [Nat.sub_self] at hget
        simp at hget
        subst hget
        simp [hp]
      · right
        apply ih.mpr
        refine ⟨by omega, r2, ?_, hp⟩
        have hd : i - n = (i - (n + 1)) + 1 := by omega
        rw [hd] at hget
        simpa using hget

theorem posIdx_ge {p : α → Bool} {i n : Nat} {rs : List α} (h : i ∈ posIdx p n rs) : n ≤ i :=
  (mem_posIdx.mp h).1

theorem posIdx_lt {p : α → Bool} {i n : Nat} {rs : List α} (h : i ∈ posIdx p n rs) :
    i < n + rs.length := by
  obtain ⟨hn, r, hget, _⟩ := mem_posIdx.mp h
  have hlt : i - n < rs.length := by
    by_contra hge
    rw [List.getElem?_eq_none (by omega)] at hget
    exact Option.noConfusion hget
  omega

theorem posIdx_nodup (p : α → Bool) : ∀ (n : Nat) (rs : List α), (posIdx p n rs).Nodup := by
  intro n rs
  induction rs generalizing n with
  | nil => simp [posIdx]
  | cons r rs ih =>
    by_cases hp : p r = true
    · simp only [posIdx, hp, if_pos]
      refine List.Nodup.cons ?_ (ih (n + 1))
      intro hmem
      exact absurd (posIdx_ge hmem) (by omega)
    · simp only [posIdx, hp]
      simpa using ih (n + 1)

theorem posIdx_length (p : α → Bool) : ∀ (n : Nat) (rs : List α),
    (posIdx p n rs).length = rs.countP p := by
  intro n rs
  induction rs generalizing n with
  | nil => simp [posIdx]
  | cons r rs ih =>
    by_cases hp : p r = true
    · simp [posIdx, hp, ih (n + 1), List.countP_cons]
    · simp [posIdx, hp, ih (n + 1), List.countP_cons]

theorem foldl_addNode_eq (recs : List NodeRec) : ∀ s : NodeState,
    recs.foldl addNode s =
      ⟨s.nodes ++ recs.map nodeOfRec,
       s.stop_nodes ++ posIdx isStopRec s.nodes.length recs,
       s.boarding_nodes ++ posIdx isBoardingRec s.nodes.length recs,
       s.population_nodes ++ posIdx isPopulationRec s.nodes.length recs,
       s.facility_nodes ++ posIdx isFacilityRec s.nodes.length recs,
       s.core_nodes ++ posIdx isCoreRec s.nodes.length recs⟩ := by
  induction recs with
  | nil => intro s; simp [posIdx]
  | cons r rs ih =>
    intro s
    rw [List.foldl_cons, ih (addNode s r)]
    by_cases h1 : r.type = STOP_NODE
    · simp [addNode, h1, posIdx, nodeOfRec, isStopRec, isBoardingRec, isPopulationRec,
        isFacilityRec, isCoreRec, STOP_NODE, BOARDING_NODE, POPULATION_NODE, FACILITY_NODE]
    · by_cases h2 : r.type = BOARDING_NODE
      · simp [addNode, h1, h2, posIdx, nodeOfRec, isStopRec, isBoardingRec, isPopulationRec,
          isFacilityRec, isCoreRec, STOP_NODE, BOARDING_NODE, POPULATION_NODE, FACILITY_NODE]
      · by_cases h3 : r.type = POPULATION_NODE
        · simp [addNode, h1, h2, h3, posIdx, nodeOfRec, isStopRec, isBoardingRec, isPopulationRec,
            isFacilityRec, isCoreRec, STOP_NODE, BOARDING_NODE, POPULATION_NODE, FACILITY_NODE]
        · by_cases h4 : r.type = FACILITY_NODE
          · simp [addNode, h1, h2, h3, h4, posIdx, nodeOfRec, isStopRec, isBoardingRec,
              isPopulationRec, isFacilityRec, isCoreRec, STOP_NODE, BOARDING_NODE,
              POPULATION_NODE, FACILITY_NODE]
          · simp [addNode, h1, h2, h3, h4, posIdx, nodeOfRec, isStopRec, isBoardingRec,
              isPopulationRec, isFacilityRec, isCoreRec]

theorem buildNodes_eq (recs : List NodeRec) :
    buildNodes recs =
      ⟨recs.map nodeOfRec,
       posIdx isStopRec 0 recs,
       posIdx isBoardingRec 0 recs,
       posIdx isPopulationRec 0 recs,
       posIdx isFacilityRec 0 recs,
       posIdx isCoreRec 0 recs⟩ := by
  simpa using foldl_addNode_eq recs ⟨[], [], [], [], [], []⟩

/-- The Arc value produced for an arc-file record: the record's fields, with
EPSILON already folded into the cost for boarding/alighting arcs and an
initial flow of 0. -/
def arcOfRec (r : ArcRec) : Arc :=
  ⟨r.id, r.tail.toNat, r.head.toNat,
   if r.type = BOARDING_ARC ∨ r.type = ALIGHTING_ARC then r.time + EPSILON else r.time,
   r.line, decide (r.type = BOARDING_ARC), 0⟩

/-- The identity-and-value part of a Node, unchanged by adjacency updates. -/
def nodeIdVal (nd : Node) : Int × ℚ := (nd.id, nd.value)

/-- Validity of one arc record's subscripts against the node and line
collection sizes: both endpoints in range, and the line subscript in range
whenever the record's type makes the constructor use it. -/
def arcOk (nn nl : Nat) (r : ArcRec) : Prop :=
  (validIdx r.tail nn ∧ validIdx r.head nn) ∧
  ((r.type = LINE_ARC ∨ r.type = BOARDING_ARC) → validIdx r.line nl)

instance (nn nl : Nat) (r : ArcRec) : Decidable (arcOk nn nl r) := by
  unfold arcOk; infer_instance

theorem map_idval_updNth (l : List Node) (t : Nat) (f : Node → Node)
    (hf : ∀ nd, nodeIdVal (f nd) = nodeIdVal nd) (i : Nat) :
    ((updNth l t f)[i]?).map nodeIdVal = (l[i]?).map nodeIdVal := by
  rw [getElem?_updNth]
  by_cases hti : t = i
  · subst hti
    cases hl : l[t]? <;> simp [hf]
  · simp [hti]

theorem addArc_arcs {s : BuildState} {r : ArcRec} {s2 : BuildState} (h : addArc s r = some s2) :
    s2.arcs = s.arcs ++ [arcOfRec r] := by
  simp only [addArc, ACCESS_ARC, LINE_ARC, BOARDING_ARC, ALIGHTING_ARC, WALKING_ARC] at h
  split_ifs at h <;>
    first
      | exact Option.noConfusion h
      | (simp only [Option.some.injEq] at h; subst h; exfalso; omega)
      | (simp only [Option.some.injEq] at h; subst h;
         simp [arcOfRec, ACCESS_ARC, LINE_ARC, BOARDING_ARC, ALIGHTING_ARC, WALKING_ARC, *]
         done)
      | (simp only [Option.some.injEq] at h; subst h;
         simp [arcOfRec, ACCESS_ARC, LINE_ARC, BOARDING_ARC, ALIGHTING_ARC, WALKING_ARC, *]
         split <;> first | rfl | (exfalso; omega))

theorem addArc_lens {s : BuildState} {r : ArcRec} {s2 : BuildState} (h : addArc s r = some s2) :
    s2.nodes.length = s.nodes.length ∧ s2.lines.length = s.lines.length := by
  simp only [addArc, ACCESS_ARC, LINE_ARC, BOARDING_ARC, ALIGHTING_ARC, WALKING_ARC] at h
  split_ifs at h <;>
    first
      | exact Option.noConfusion h
      | (simp only [Option.some.injEq] at h; subst h;
         simp [updNth_length]
         done)

theorem addArc_roles {s : BuildState} {r : ArcRec} {s2 : BuildState} (h : addArc s r = some s2) :
    s2.access_arcs = s.access_arcs ++ (if r.type = ACCESS_ARC then [s.arcs.length] else []) ∧
    s2.core_arcs = s.core_arcs ++ (if r.type = ACCESS_ARC then [] else [s.arcs.length]) ∧
    s2.line_arcs = s.line_arcs ++ (if r.type = LINE_ARC then [s.arcs.length] else []) ∧
    s2.walking_arcs = s.walking_arcs ++ (if r.type = WALKING_ARC then [s.arcs.length] else []) := by
  simp only [addArc, ACCESS_ARC, LINE_ARC, BOARDING_ARC, ALIGHTING_ARC, WALKING_ARC] at h
  split_ifs at h <;>
    first
      | exact Option.noConfusion h
      | (simp only [Option.some.injEq] at h; subst h; exfalso; omega)
      | (simp only [Option.some.injEq] at h; subst h;
         simp [ACCESS_ARC, LINE_ARC, BOARDING_ARC, ALIGHTING_ARC, WALKING_ARC, *]
         done)

theorem idval_upd_access (l : List Node) (t k : Nat) (i : Nat) :
    ((updNth l t (fun nd => { nd with access_out := nd.access_out ++ [k] }))[i]?).map nodeIdVal
      = (l[i]?).map nodeIdVal := by
  apply map_idval_updNth
  intro nd
  rfl

theorem idval_upd_core_out (l : List Node) (t k : Nat) (i : Nat) :
    ((updNth l t (fun nd => { nd with core_out := nd.core_out ++ [k] }))[i]?).map nodeIdVal
      = (l[i]?).map nodeIdVal := by
  apply map_idval_updNth
  intro nd
  rfl

theorem idval_upd_core_in (l : List Node) (t k : Nat) (i : Nat) :
    ((updNth l t (fun nd => { nd with core_in := nd.core_in ++ [k] }))[i]?).map nodeIdVal
      = (l[i]?).map nodeIdVal := by
  apply map_idval_updNth
  intro nd
  rfl

theorem addArc_nodes_idval {s : BuildState} {r : ArcRec} {s2 : BuildState}
    (h : addArc s r = some s2) (i : Nat) :
    (s2.nodes[i]?).map nodeIdVal = (s.nodes[i]?).map nodeIdVal := by
  simp only [addArc, ACCESS_ARC, LINE_ARC, BOARDING_ARC, ALIGHTING_ARC, WALKING_ARC] at h
  split_ifs at h <;>
    first
      | exact Option.noConfusion h
      | (simp only [Option.some.injEq] at h; subst h;
         simp only [idval_upd_access, idval_upd_core_out, idval_upd_core_in])

theorem addArc_lines_get {s : BuildState} {r : ArcRec} {s2 : BuildState}
    (h : addArc s r = some s2) (l : Nat) :
    s2.lines[l]? = (s.lines[l]?).map (fun L =>
      if r.type = BOARDING_ARC ∧ r.line = (l : Int) then
        { L with boarding := L.boarding ++ [s.arcs.length], stops := L.stops ++ [r.tail.toNat] }
      else if r.type = LINE_ARC ∧ r.line = (l : Int) then
        { L with in_vehicle := L.in_vehicle ++ [s.arcs.length] }
      else L) := by
  simp only [ACCESS_ARC, LINE_ARC, BOARDING_ARC, ALIGHTING_ARC, WALKING_ARC]
  simp only [addArc, validIdx, ACCESS_ARC, LINE_ARC, BOARDING_ARC, ALIGHTING_ARC,
    WALKING_ARC] at h
  split_ifs at h <;>
    first
      | exact Option.noConfusion h
      | (simp only [Option.some.injEq] at h; subst h; exfalso; omega)
      | (simp only [Option.some.injEq] at h; subst h;
         cases hL : s.lines[l]? <;> simp [hL, *]
         done)
      | (simp only [Option.some.injEq] at h; subst h;
         rw [getElem?_updNth]
         by_cases htl : r.line.toNat = l
         · cases hL : s.lines[l]? <;>
             simp [hL, htl, show r.line = (l : Int) by omega, *]
         · cases hL : s.lines[l]? <;>
             simp [hL, htl, show ¬ r.line = (l : Int) by omega, *])

theorem addArc_isSome {s : BuildState} {r : ArcRec} :
    (addArc s r).isSome ↔ arcOk s.nodes.length s.lines.length r := by
  simp only [addArc, arcOk, validIdx, ACCESS_ARC, LINE_ARC, BOARDING_ARC, ALIGHTING_ARC,
    WALKING_ARC]
  split_ifs <;> simp <;> omega

/-- Whether an arc record's type selects the access role. -/
def isAccessArcRec (r : ArcRec) : Bool := decide (r.type = ACCESS_ARC)

/-- Whether an arc record's type selects the core role (any non-access type). -/
def isCoreArcRec (r : ArcRec) : Bool := decide (¬ r.type = ACCESS_ARC)

/-- Whether an arc record's type selects the line-arc role. -/
def isLineArcRec (r : ArcRec) : Bool := decide (r.type = LINE_ARC)

/-- Whether an arc record's type selects the walking-arc role. -/
def isWalkingArcRec (r : ArcRec) : Bool := decide (r.type = WALKING_ARC)

/-- Whether an arc record is a boarding arc assigned to line l. -/
def isBoardingOfRec (l : Nat) (r : ArcRec) : Bool :=
  decide (r.type = BOARDING_ARC ∧ r.line = (l : Int))

/-- Whether an arc record is a line (in-vehicle) arc assigned to line l. -/
def isLineOfRec (l : Nat) (r : ArcRec) : Bool :=
  decide (r.type = LINE_ARC ∧ r.line = (l : Int))

/-- The tail node indices of the boarding-arc records of line l, in file
order (the entries the constructor appends to that line's stops list). -/
def stopsOfRecs (l : Nat) (recs : List ArcRec) : List Nat :=
  (recs.filter (isBoardingOfRec l)).map (fun r => r.tail.toNat)

theorem buildArcs_some (recs : List ArcRec) : ∀ {s s2 : BuildState},
    buildArcs s recs = some s2 →
    s2.arcs = s.arcs ++ recs.map arcOfRec ∧
    s2.nodes.length = s.nodes.length ∧
    s2.lines.length = s.lines.length ∧
    (∀ i : Nat, (s2.nodes[i]?).map nodeIdVal = (s.nodes[i]?).map nodeIdVal) ∧
    s2.access_arcs = s.access_arcs ++ posIdx isAccessArcRec s.arcs.length recs ∧
    s2.core_arcs = s.core_arcs ++ posIdx isCoreArcRec s.arcs.length recs ∧
    s2.line_arcs = s.line_arcs ++ posIdx isLineArcRec s.arcs.length recs ∧
    s2.walking_arcs = s.walking_arcs ++ posIdx isWalkingArcRec s.arcs.length recs := by
  induction recs with
  | nil =>
    intro s s2 h
    simp only [buildArcs, Option.some.injEq] at h
    subst h
    simp [posIdx]
  | cons r rs ih =>
    intro s s2 h
    simp only [buildArcs] at h
    cases ha : addArc s r with
    | none => rw [ha] at h; exact Option.noConfusion h
    | some s1 =>
      rw [ha] at h
      obtain ⟨harcs, hnl, hll, hniv, hacc, hcore, hline, hwalk⟩ := ih h
      obtain ⟨hnl1, hll1⟩ := addArc_lens ha
      have harcs1 := addArc_arcs ha
      obtain ⟨hacc1, hcore1, hline1, hwalk1⟩ := addArc_roles ha
      have hlen1 : s1.arcs.length = s.arcs.length + 1 := by rw [harcs1]; simp
      refine ⟨?_, ?_, ?_, ?_, ?_, ?_, ?_, ?_⟩
      · rw [harcs, harcs1]; simp
      · rw [hnl, hnl1]
      · rw [hll, hll1]
      · intro i; exact (hniv i).trans (addArc_nodes_idval ha i)
      · rw [hacc, hacc1, hlen1]
        by_cases hr : r.type = ACCESS_ARC <;> simp [posIdx, isAccessArcRec, hr]
      · rw [hcore, hcore1, hlen1]
        by_cases hr : r.type = ACCESS_ARC <;> simp [posIdx, isCoreArcRec, hr]
      · rw [hline, hline1, hlen1]
        by_cases hr : r.type = LINE_ARC <;> simp [posIdx, isLineArcRec, hr]
      · rw [hwalk, hwalk1, hlen1]
        by_cases hr : r.type = WALKING_ARC <;> simp [posIdx, isWalkingArcRec, hr]

theorem buildArcs_isSome (recs : List ArcRec) : ∀ {s : BuildState},
    (∀ r ∈ recs, arcOk s.nodes.length s.lines.length r) → (buildArcs s recs).isSome := by
  induction recs with
  | nil => intro s _; simp [buildArcs]
  | cons r rs ih =>
    intro s hall
    have h1 : (addArc s r).isSome := addArc_isSome.mpr (hall r (by simp))
    obtain ⟨s1, hs1⟩ := Option.isSome_iff_exists.mp h1
    simp only [buildArcs, hs1]
    apply ih
    intro r2 hr2
    obtain ⟨hnl, hll⟩ := addArc_lens hs1
    rw [hnl, hll]
    exact hall r2 (by simp [hr2])

theorem buildArcs_lines_get (recs : List ArcRec) : ∀ {s s2 : BuildState},
    buildArcs s recs = some s2 → ∀ l : Nat,
    s2.lines[l]? = (s.lines[l]?).map (fun L =>
      { L with boarding := L.boarding ++ posIdx (isBoardingOfRec l) s.arcs.length recs,
               stops := L.stops ++ stopsOfRecs l recs,
               in_vehicle := L.in_vehicle ++ posIdx (isLineOfRec l) s.arcs.length recs }) := by
  induction recs with
  | nil =>
    intro s s2 h l
    simp only [buildArcs, Option.some.injEq] at h
    subst h
    cases hL : s.lines[l]? <;> simp [hL, posIdx, stopsOfRecs]
  | cons r rs ih =>
    intro s s2 h l
    simp only [buildArcs] at h
    cases ha : addArc s r with
    | none => rw [ha] at h; exact Option.noConfusion h
    | some s1 =>
      rw [ha] at h
      have hstep := addArc_lines_get ha l
      have hrest := ih h l
      have hlen1 : s1.arcs.length = s.arcs.length + 1 := by
        rw [addArc_arcs ha]; simp
      rw [hrest, hstep, hlen1]
      by_cases hb : r.type = BOARDING_ARC ∧ r.line = (l : Int)
      · cases hL : s.lines[l]? <;>
          simp [posIdx, stopsOfRecs, isBoardingOfRec, isLineOfRec, hb.1, hb.2,
            BOARDING_ARC, LINE_ARC]
      · by_cases hl2 : r.type = LINE_ARC ∧ r.line = (l : Int)
        · cases hL : s.lines[l]? <;>
            simp [posIdx, stopsOfRecs, isBoardingOfRec, isLineOfRec, hl2.1, hl2.2,
              BOARDING_ARC, LINE_ARC]
        · cases hL : s.lines[l]? <;>
            simp [posIdx, stopsOfRecs, isBoardingOfRec, isLineOfRec, hb, hl2]

/-- The Arc record with its flow reset, used to compare every other field. -/
def stripFlow (a : Arc) : Arc := { a with flow := 0 }

theorem applyFlow_some {s : BuildState} {r : FlowRec} {s2 : BuildState}
    (h : applyFlow s r = some s2) :
    ∃ ai, 0 ≤ r.id ∧ s.core_arcs[r.id.toNat]? = some ai ∧
      s2 = { s with arcs := updNth s.arcs ai (fun a => { a with flow := r.flow }) } := by
  simp only [applyFlow] at h
  split_ifs at h with hid
  · cases hc : s.core_arcs[r.id.toNat]? with
    | none => rw [hc] at h; exact Option.noConfusion h
    | some ai =>
      rw [hc] at h
      simp only [Option.some.injEq] at h
      exact ⟨ai, hid, rfl, h.symm⟩

theorem applyFlow_isSome {s : BuildState} {r : FlowRec} :
    (applyFlow s r).isSome ↔ 0 ≤ r.id ∧ r.id.toNat < s.core_arcs.length := by
  simp only [applyFlow]
  split_ifs with hid
  · cases hc : s.core_arcs[r.id.toNat]? with
    | none =>
      have hle := List.getElem?_eq_none_iff.mp hc
      simp [hid]
      omega
    | some ai =>
      have hlt : r.id.toNat < s.core_arcs.length := by
        by_contra hge
        rw [List.getElem?_eq_none (by omega)] at hc
        exact Option.noConfusion hc
      simp [hid, hlt]
  · simp [hid]

theorem applyFlows_some (recs : List FlowRec) : ∀ {s s2 : BuildState},
    applyFlows s recs = some s2 →
    s2.nodes = s.nodes ∧ s2.lines = s.lines ∧ s2.access_arcs = s.access_arcs ∧
    s2.core_arcs = s.core_arcs ∧ s2.line_arcs = s.line_arcs ∧
    s2.walking_arcs = s.walking_arcs ∧
    s2.arcs.length = s.arcs.length ∧
    (∀ i : Nat, (s2.arcs[i]?).map stripFlow = (s.arcs[i]?).map stripFlow) ∧
    (∀ i : Nat, (∀ r ∈ recs, ¬(0 ≤ r.id ∧ s.core_arcs[r.id.toNat]? = some i)) →
      s2.arcs[i]? = s.arcs[i]?) := by
  induction recs with
  | nil =>
    intro s s2 h
    simp only [applyFlows, Option.some.injEq] at h
    subst h
    exact ⟨rfl, rfl, rfl, rfl, rfl, rfl, rfl, fun i => rfl, fun i _ => rfl⟩
  | cons r rs ih =>
    intro s s2 h
    simp only [applyFlows] at h
    cases ha : applyFlow s r with
    | none => rw [ha] at h; exact Option.noConfusion h
    | some s1 =>
      rw [ha] at h
      obtain ⟨ai, hid, hc, hs1⟩ := applyFlow_some ha
      obtain ⟨hn, hl, hac, hco, hli, hwa, hlen, hstrip, hnotnamed⟩ := ih h
      subst hs1
      refine ⟨hn, hl, hac, hco, hli, hwa, ?_, ?_, ?_⟩
      · rw [hlen]; simp [updNth_length]
      · intro i
        rw [hstrip i, getElem?_updNth]
        by_cases hai : ai = i
        · subst hai; cases s.arcs[ai]? <;> simp [stripFlow]
        · simp [hai]
      · intro i hnone
        have hne : ¬ ai = i := by
          intro he
          subst he
          exact hnone r (by simp) ⟨hid, hc⟩
        rw [hnotnamed i, getElem?_updNth]
        · simp [hne]
        · intro r2 hr2 hbad
          exact hnone r2 (by simp [hr2]) hbad

theorem applyFlows_named (recs : List FlowRec) : ∀ {s s2 : BuildState},
    applyFlows s recs = some s2 →
    (recs.map FlowRec.id).Nodup → s.core_arcs.Nodup →
    (∀ j ∈ s.core_arcs, j < s.arcs.length) →
    ∀ r ∈ recs, ∀ ai, s.core_arcs[r.id.toNat]? = some ai → 0 ≤ r.id →
      (s2.arcs[ai]?).map Arc.flow = some r.flow := by
  induction recs with
  | nil => intro s s2 _ _ _ _ r hr; exact absurd hr (List.not_mem_nil r)
  | cons r rs ih =>
    intro s s2 h hnodup hcnodup hbound r2 hr2 ai hc hid
    simp only [applyFlows] at h
    cases ha : applyFlow s r with
    | none => rw [ha] at h; exact Option.noConfusion h
    | some s1 =>
      rw [ha] at h
      obtain ⟨ai1, hid1, hc1, hs1⟩ := applyFlow_some ha
      have hcore1 : s1.core_arcs = s.core_arcs := by subst hs1; rfl
      have harcs1len : s1.arcs.length = s.arcs.length := by subst hs1; simp [updNth_length]
      rcases List.mem_cons.mp hr2 with he | htail
      · subst he
        have hai : ai = ai1 := by
          rw [hc] at hc1
          exact Option.some.inj hc1
        subst hai
        have hailt : ai < s.arcs.length :=
          hbound ai (List.getElem?_mem hc)
        have h1 : s1.arcs[ai]? = (s.arcs[ai]?).map (fun a => { a with flow := r2.flow }) := by
          subst hs1
          rw [getElem?_updNth]
          simp
        obtain ⟨_, _, _, _, _, _, _, _, hnotnamed⟩ := applyFlows_some rs h
        have h2 : s2.arcs[ai]? = s1.arcs[ai]? := by
          apply hnotnamed
          intro r3 hr3 hbad
          obtain ⟨hid3, hc3⟩ := hbad
          rw [hcore1] at hc3
          have hne : ¬ r3.id = r2.id := by
            have hmem3 : r3.id ∈ rs.map FlowRec.id := List.mem_map_of_mem FlowRec.id hr3
            have := List.nodup_cons.mp hnodup
            intro heq
            rw [heq] at hmem3
            exact this.1 hmem3
          have htn : r3.id.toNat = r2.id.toNat := by
            have hlt3 : r3.id.toNat < s.core_arcs.length := by
              by_contra hge
              rw [List.getElem?_eq_none (by omega)] at hc3
              exact Option.noConfusion hc3
            have := List.getElem?_inj hlt3 hcnodup (hc3.trans hc.symm)
            exact this
          omega
        rw [h2, h1, List.getElem?_eq_getElem hailt]
        rfl
      · apply ih h (List.nodup_cons.mp hnodup).2
        · rw [hcore1]; exact hcnodup
        · rw [hcore1, harcs1len]; exact hbound
        · exact htail
        · rw [hcore1]; exact hc
        · exact hid

theorem applyFlows_isSome (recs : List FlowRec) : ∀ {s : BuildState},
    (∀ r ∈ recs, 0 ≤ r.id ∧ r.id.toNat < s.core_arcs.length) →
    (applyFlows s recs).isSome := by
  induction recs with
  | nil => intro s _; simp [applyFlows]
  | cons r rs ih =>
    intro s hall
    have h1 : (applyFlow s r).isSome := applyFlow_isSome.mpr (hall r (by simp))
    obtain ⟨s1, hs1⟩ := Option.isSome_iff_exists.mp h1
    simp only [applyFlows, hs1]
    apply ih
    intro r2 hr2
    obtain ⟨ai, _, _, hse⟩ := applyFlow_some hs1
    subst hse
    exact hall r2 (by simp [hr2])

theorem mkNetwork_parts {nf : Option (List NodeRec)} {af : Option (List ArcRec)}
    {tf : Option (List TransitRec)} {vf : Option (List VehicleRec)} {pf : Option ℚ}
    {ff : Option (List FlowRec)} {net : Network}
    (h : mkNetwork nf af tf vf pf ff = some net) :
    ∃ s1 s2 : BuildState,
      buildArcs ⟨(buildNodes (nf.getD [])).nodes,
        buildLines (pf.getD 1440) (buildSeating (vf.getD [])) (tf.getD []),
        [], [], [], [], []⟩ (af.getD []) = some s1 ∧
      applyFlows s1 (ff.getD []) = some s2 ∧
      net = ⟨s2.nodes, s2.arcs, s2.lines,
        (buildNodes (nf.getD [])).stop_nodes, (buildNodes (nf.getD [])).boarding_nodes,
        (buildNodes (nf.getD [])).population_nodes, (buildNodes (nf.getD [])).facility_nodes,
        (buildNodes (nf.getD [])).core_nodes,
        s2.access_arcs, s2.core_arcs, s2.line_arcs, s2.walking_arcs⟩ := by
  simp only [mkNetwork] at h
  split at h
  · exact Option.noConfusion h
  · rename_i s1 h1
    split at h
    · exact Option.noConfusion h
    · rename_i s2 h2
      simp only [Option.some.injEq] at h
      exact ⟨s1, s2, h1, h2, h.symm⟩

theorem mkNetwork_isSome {nf : Option (List NodeRec)} {af : Option (List ArcRec)}
    {tf : Option (List TransitRec)} {vf : Option (List VehicleRec)} {pf : Option ℚ}
    {ff : Option (List FlowRec)}
    (ha : ∀ r ∈ (af.getD [] : List ArcRec), arcOk (nf.getD []).length (tf.getD []).length r)
    (hf : ∀ r ∈ (ff.getD [] : List FlowRec),
      0 ≤ r.id ∧ r.id.toNat < (af.getD []).countP isCoreArcRec) :
    (mkNetwork nf af tf vf pf ff).isSome = true := by
  have hnlen : (buildNodes (nf.getD [])).nodes.length = (nf.getD []).length := by
    rw [buildNodes_eq]; simp
  have hllen : (buildLines (pf.getD 1440) (buildSeating (vf.getD [])) (tf.getD [])).length
      = (tf.getD []).length := by
    simp [buildLines]
  have h1 : (buildArcs ⟨(buildNodes (nf.getD [])).nodes,
      buildLines (pf.getD 1440) (buildSeating (vf.getD [])) (tf.getD []),
      [], [], [], [], []⟩ (af.getD [])).isSome := by
    apply buildArcs_isSome
    intro r hr
    simp only [hnlen, hllen]
    exact ha r hr
  obtain ⟨s1, hs1⟩ := Option.isSome_iff_exists.mp h1
  obtain ⟨_, _, _, _, _, hcore, _, _⟩ := buildArcs_some (af.getD []) hs1
  have h2 : (applyFlows s1 (ff.getD [])).isSome := by
    apply applyFlows_isSome
    intro r hr
    rw [hcore]
    simp only [List.nil_append, List.length_nil]
    rw [posIdx_length]
    exact hf r hr
  obtain ⟨s2, hs2⟩ := Option.isSome_iff_exists.mp h2
  simp only [mkNetwork, hs1, hs2, Option.isSome_some]

theorem mkNetwork_node_roles {nf : Option (List NodeRec)} {af : Option (List ArcRec)}
    {tf : Option (List TransitRec)} {vf : Option (List VehicleRec)} {pf : Option ℚ}
    {ff : Option (List FlowRec)} {net : Network}
    (h : mkNetwork nf af tf vf pf ff = some net) :
    net.stop_nodes = posIdx isStopRec 0 (nf.getD []) ∧
    net.boarding_nodes = posIdx isBoardingRec 0 (nf.getD []) ∧
    net.population_nodes = posIdx isPopulationRec 0 (nf.getD []) ∧
    net.facility_nodes = posIdx isFacilityRec 0 (nf.getD []) ∧
    net.core_nodes = posIdx isCoreRec 0 (nf.getD []) := by
  obtain ⟨s1, s2, h1, h2, hn⟩ := mkNetwork_parts h
  subst hn
  rw [buildNodes_eq]
  exact ⟨rfl, rfl, rfl, rfl, rfl⟩

theorem mkNetwork_arc_roles {nf : Option (List NodeRec)} {af : Option (List ArcRec)}
    {tf : Option (List TransitRec)} {vf : Option (List VehicleRec)} {pf : Option ℚ}
    {ff : Option (List FlowRec)} {net : Network}
    (h : mkNetwork nf af tf vf pf ff = some net) :
    net.access_arcs = posIdx isAccessArcRec 0 (af.getD []) ∧
    net.core_arcs = posIdx isCoreArcRec 0 (af.getD []) ∧
    net.line_arcs = posIdx isLineArcRec 0 (af.getD []) ∧
    net.walking_arcs = posIdx isWalkingArcRec 0 (af.getD []) := by
  obtain ⟨s1, s2, h1, h2, hn⟩ := mkNetwork_parts h
  subst hn
  obtain ⟨_, _, _, _, hacc, hcore, hline, hwalk⟩ := buildArcs_some (af.getD []) h1
  obtain ⟨_, _, hac2, hco2, hli2, hwa2, _, _, _⟩ := applyFlows_some (ff.getD []) h2
  simp only [List.nil_append, List.length_nil] at hacc hcore hline hwalk
  exact ⟨hac2.trans hacc, hco2.trans hcore, hli2.trans hline, hwa2.trans hwalk⟩

theorem mkNetwork_nodes_idval {nf : Option (List NodeRec)} {af : Option (List ArcRec)}
    {tf : Option (List TransitRec)} {vf : Option (List VehicleRec)} {pf : Option ℚ}
    {ff : Option (List FlowRec)} {net : Network}
    (h : mkNetwork nf af tf vf pf ff = some net) (i : Nat) :
    (net.nodes[i]?).map nodeIdVal = (((nf.getD []).map nodeOfRec)[i]?).map nodeIdVal := by
  obtain ⟨s1, s2, h1, h2, hn⟩ := mkNetwork_parts h
  subst hn
  obtain ⟨_, _, _, hidv, _, _, _, _⟩ := buildArcs_some (af.getD []) h1
  obtain ⟨hn2, _, _, _, _, _, _, _, _⟩ := applyFlows_some (ff.getD []) h2
  have hbn : (buildNodes (nf.getD [])).nodes = (nf.getD []).map nodeOfRec := by
    rw [buildNodes_eq]
  show (s2.nodes[i]?).map nodeIdVal = _
  rw [hn2]
  rw [← hbn]
  exact hidv i

theorem mkNetwork_arcs_strip {nf : Option (List NodeRec)} {af : Option (List ArcRec)}
    {tf : Option (List TransitRec)} {vf : Option (List VehicleRec)} {pf : Option ℚ}
    {ff : Option (List FlowRec)} {net : Network}
    (h : mkNetwork nf af tf vf pf ff = some net) (i : Nat) :
    (net.arcs[i]?).map stripFlow = ((af.getD []).map arcOfRec)[i]? := by
  obtain ⟨s1, s2, h1, h2, hn⟩ := mkNetwork_parts h
  subst hn
  obtain ⟨harcs, _, _, _, _, _, _, _⟩ := buildArcs_some (af.getD []) h1
  obtain ⟨_, _, _, _, _, _, _, hstrip, _⟩ := applyFlows_some (ff.getD []) h2
  show (s2.arcs[i]?).map stripFlow = _
  rw [hstrip i, harcs]
  simp only [List.nil_append, List.getElem?_map]
  cases (af.getD [])[i]? with
  | none => rfl
  | some r => rfl

theorem mkNetwork_lines_get {nf : Option (List NodeRec)} {af : Option (List ArcRec)}
    {tf : Option (List TransitRec)} {vf : Option (List VehicleRec)} {pf : Option ℚ}
    {ff : Option (List FlowRec)} {net : Network}
    (h : mkNetwork nf af tf vf pf ff = some net) (l : Nat) :
    net.lines[l]? = ((tf.getD [])[l]?).map (fun r =>
      ⟨r.circuit, buildSeating (vf.getD []) r.vehicle_type, r.day_fraction, pf.getD 1440,
       r.fleet, r.name,
       stopsOfRecs l (af.getD []),
       posIdx (isBoardingOfRec l) 0 (af.getD []),
       posIdx (isLineOfRec l) 0 (af.getD [])⟩) := by
  obtain ⟨s1, s2, h1, h2, hn⟩ := mkNetwork_parts h
  subst hn
  obtain ⟨_, hl2, _, _, _, _, _, _, _⟩ := applyFlows_some (ff.getD []) h2
  have hlg := buildArcs_lines_get (af.getD []) h1 l
  show s2.lines[l]? = _
  rw [hl2, hlg]
  simp only [List.length_nil, buildLines, List.getElem?_map]
  cases (tf.getD [])[l]? with
  | none => rfl
  | some r => rfl

theorem posIdx_disjoint {p q : α → Bool} (hpq : ∀ r, ¬(p r = true ∧ q r = true)) :
    ∀ (n : Nat) (rs : List α), List.Disjoint (posIdx p n rs) (posIdx q n rs) := by
  intro n rs i hip hiq
  obtain ⟨hn1, r1, hg1, hp1⟩ := mem_posIdx.mp hip
  obtain ⟨hn2, r2, hg2, hp2⟩ := mem_posIdx.mp hiq
  rw [hg1] at hg2
  cases Option.some.inj hg2
  exact hpq r1 ⟨hp1, hp2⟩

theorem posIdx_subset_of {p q : α → Bool} (hpq : ∀ r, p r = true → q r = true) :
    ∀ (n : Nat) (rs : List α), posIdx p n rs ⊆ posIdx q n rs := by
  intro n rs i hip
  obtain ⟨hn1, r1, hg1, hp1⟩ := mem_posIdx.mp hip
  exact mem_posIdx.mpr ⟨hn1, r1, hg1, hpq r1 hp1⟩

theorem posIdx_mem_or {p q w : α → Bool} (hp : ∀ r, p r = true ↔ (q r = true ∨ w r = true)) :
    ∀ (n : Nat) (rs : List α) (i : Nat),
      (i ∈ posIdx p n rs ↔ (i ∈ posIdx q n rs ∨ i ∈ posIdx w n rs)) := by
  intro n rs i
  constructor
  · intro hi
    obtain ⟨hn, r, hg, hpr⟩ := mem_posIdx.mp hi
    rcases (hp r).mp hpr with hq | hw
    · exact Or.inl (mem_posIdx.mpr ⟨hn, r, hg, hq⟩)
    · exact Or.inr (mem_posIdx.mpr ⟨hn, r, hg, hw⟩)
  · rintro (hi | hi)
    · obtain ⟨hn, r, hg, hpr⟩ := mem_posIdx.mp hi
      exact mem_posIdx.mpr ⟨hn, r, hg, (hp r).mpr (Or.inl hpr)⟩
    · obtain ⟨hn, r, hg, hpr⟩ := mem_posIdx.mp hi
      exact mem_posIdx.mpr ⟨hn, r, hg, (hp r).mpr (Or.inr hpr)⟩

/-- C6 counterexample: on an input with a single stop node, node index 0 is a
member of both the stop collection and the core collection, so the five
node role collections are not pairwise disjoint as the claim states. -/
theorem C6_counterexample :
    ∃ net, mkNetwork (some [⟨0, STOP_NODE, 0⟩]) none none none none none = some net ∧
      0 ∈ net.stop_nodes ∧ 0 ∈ net.core_nodes ∧
      ¬ List.Disjoint net.stop_nodes net.core_nodes := by
  have hsome : (mkNetwork (some [⟨0, STOP_NODE, 0⟩]) none none none none none).isSome
      = true := rfl
  obtain ⟨net, hnet⟩ := Option.isSome_iff_exists.mp hsome
  have h1 : (mkNetwork (some [⟨0, STOP_NODE, 0⟩]) none none none none none).map
      (fun n => (decide (0 ∈ n.stop_nodes), decide (0 ∈ n.core_nodes))) = some (true, true) := rfl
  rw [hnet] at h1
  simp only [Option.map_some', Option.some.injEq, Prod.mk.injEq] at h1
  have hs := of_decide_eq_true h1.1
  have hc := of_decide_eq_true h1.2
  exact ⟨net, hnet, hs, hc, fun hd => hd hs hc⟩

/-- C6 (amended): the four primary node role collections (stop, boarding,
population, facility) are pairwise disjoint, but the core node collection
is exactly the union of the stop and boarding collections rather than
disjoint from them; on the arc side the access collection is disjoint from
the core, line and walking collections and line/walking are disjoint from
each other, but line and walking arcs are contained in the core collection
rather than disjoint from it. -/
theorem C6_roles_amended : ∀ (nf : Option (List NodeRec)) (af : Option (List ArcRec))
    (tf : Option (List TransitRec)) (vf : Option (List VehicleRec)) (pf : Option ℚ)
    (ff : Option (List FlowRec)) (net : Network),
    mkNetwork nf af tf vf pf ff = some net →
    (List.Disjoint net.stop_nodes net.boarding_nodes ∧
     List.Disjoint net.stop_nodes net.population_nodes ∧
     List.Disjoint net.stop_nodes net.facility_nodes ∧
     List.Disjoint net.boarding_nodes net.population_nodes ∧
     List.Disjoint net.boarding_nodes net.facility_nodes ∧
     List.Disjoint net.population_nodes net.facility_nodes) ∧
    (∀ i : Nat, i ∈ net.core_nodes ↔ (i ∈ net.stop_nodes ∨ i ∈ net.boarding_nodes)) ∧
    (List.Disjoint net.access_arcs net.core_arcs ∧
     List.Disjoint net.access_arcs net.line_arcs ∧
     List.Disjoint net.access_arcs net.walking_arcs ∧
     List.Disjoint net.line_arcs net.walking_arcs) ∧
    (net.line_arcs ⊆ net.core_arcs ∧ net.walking_arcs ⊆ net.core_arcs) := by
  intro nf af tf vf pf ff net h
  obtain ⟨hst, hbo, hpo, hfa, hcn⟩ := mkNetwork_node_roles h
  obtain ⟨haa, hca, hla, hwa⟩ := mkNetwork_arc_roles h
  rw [hst, hbo, hpo, hfa, hcn, haa, hca, hla, hwa]
  refine ⟨⟨?_, ?_, ?_, ?_, ?_, ?_⟩, ?_, ⟨?_, ?_, ?_, ?_⟩, ?_, ?_⟩
  · exact posIdx_disjoint (by intro r; simp [isStopRec, isBoardingRec, STOP_NODE, BOARDING_NODE]; omega) 0 _
  · exact posIdx_disjoint (by intro r; simp [isStopRec, isPopulationRec, STOP_NODE, POPULATION_NODE]; omega) 0 _
  · exact posIdx_disjoint (by intro r; simp [isStopRec, isFacilityRec, STOP_NODE, FACILITY_NODE]; omega) 0 _
  · exact posIdx_disjoint (by intro r; simp [isBoardingRec, isPopulationRec, BOARDING_NODE, POPULATION_NODE]; omega) 0 _
  · exact posIdx_disjoint (by intro r; simp [isBoardingRec, isFacilityRec, BOARDING_NODE, FACILITY_NODE]; omega) 0 _
  · exact posIdx_disjoint (by intro r; simp [isPopulationRec, isFacilityRec, POPULATION_NODE, FACILITY_NODE]; omega) 0 _
  · exact fun i => posIdx_mem_or (by intro r; simp [isCoreRec, isStopRec, isBoardingRec]) 0 _ i
  · exact posIdx_disjoint (by intro r; simp [isAccessArcRec, isCoreArcRec]) 0 _
  · exact posIdx_disjoint (by intro r; simp [isAccessArcRec, isLineArcRec, ACCESS_ARC, LINE_ARC]; omega) 0 _
  · exact posIdx_disjoint (by intro r; simp [isAccessArcRec, isWalkingArcRec, ACCESS_ARC, WALKING_ARC]; omega) 0 _
  · exact posIdx_disjoint (by intro r; simp [isLineArcRec, isWalkingArcRec, LINE_ARC, WALKING_ARC]; omega) 0 _
  · exact posIdx_subset_of (by intro r; simp [isLineArcRec, isCoreArcRec, LINE_ARC, ACCESS_ARC]; omega) 0 _
  · exact posIdx_subset_of (by intro r; simp [isWalkingArcRec, isCoreArcRec, WALKING_ARC, ACCESS_ARC]; omega) 0 _

/-- C6 amended-theorem witness at a concrete input with one node of each
role and one arc of each role. -/
theorem C6_roles_witness :
    ∃ net, mkNetwork
        (some [⟨0, STOP_NODE, 0⟩, ⟨1, BOARDING_NODE, 0⟩, ⟨2, POPULATION_NODE, 0⟩,
               ⟨3, FACILITY_NODE, 0⟩])
        (some [⟨0, ACCESS_ARC, -1, 2, 0, 1⟩, ⟨1, WALKING_ARC, -1, 0, 3, 1⟩])
        none none none none = some net ∧
      List.Disjoint net.stop_nodes net.boarding_nodes ∧
      (∀ i : Nat, i ∈ net.core_nodes ↔ (i ∈ net.stop_nodes ∨ i ∈ net.boarding_nodes)) ∧
      List.Disjoint net.access_arcs net.core_arcs := by
  have hsome : (mkNetwork
      (some [⟨0, STOP_NODE, 0⟩, ⟨1, BOARDING_NODE, 0⟩, ⟨2, POPULATION_NODE, 0⟩,
             ⟨3, FACILITY_NODE, 0⟩])
      (some [⟨0, ACCESS_ARC, -1, 2, 0, 1⟩, ⟨1, WALKING_ARC, -1, 0, 3, 1⟩])
      none none none none).isSome = true := rfl
  obtain ⟨net, hnet⟩ := Option.isSome_iff_exists.mp hsome
  obtain ⟨hdisj, hcore, harc, _⟩ := C6_roles_amended _ _ _ _ _ _ net hnet
  exact ⟨net, hnet, hdisj.1, hcore, harc.1⟩

/-- C7 counterexample: a node file whose single record carries id 5 produces
a network whose node at position 0 has id 5, not 0, so ids are taken from
the input record rather than forced to equal positions. -/
theorem C7_counterexample :
    ∃ net, mkNetwork (some [⟨5, STOP_NODE, 0⟩]) none none none none none = some net ∧
      (net.nodes[0]?).map Node.id = some 5 ∧
      ¬ ((net.nodes[0]?).map Node.id = some 0) := by
  have hsome : (mkNetwork (some [⟨5, STOP_NODE, 0⟩]) none none none none none).isSome
      = true := rfl
  obtain ⟨net, hnet⟩ := Option.isSome_iff_exists.mp hsome
  have h1 : (mkNetwork (some [⟨5, STOP_NODE, 0⟩]) none none none none none).map
      (fun n => (n.nodes[0]?).map Node.id) = some (some 5) := rfl
  rw [hnet] at h1
  simp only [Option.map_some', Option.some.injEq] at h1
  refine ⟨net, hnet, h1, ?_⟩
  rw [h1]
  intro hbad
  have := Option.some.inj hbad
  exact absurd this (by decide)

/-- C7 (amended): the id stored at each node position is the id field of the
input record at that position - not forced to equal the position; the
claimed id = position identity holds exactly for inputs whose records
already carry their positions as ids. -/
theorem C7_ids_amended : ∀ (nf : Option (List NodeRec)) (af : Option (List ArcRec))
    (tf : Option (List TransitRec)) (vf : Option (List VehicleRec)) (pf : Option ℚ)
    (ff : Option (List FlowRec)) (net : Network),
    mkNetwork nf af tf vf pf ff = some net →
    (∀ i : Nat, (net.nodes[i]?).map Node.id = ((nf.getD [])[i]?).map NodeRec.id) ∧
    ((∀ i : Nat, ∀ r : NodeRec, (nf.getD [])[i]? = some r → r.id = (i : Int)) →
      ∀ i : Nat, ∀ nd : Node, net.nodes[i]? = some nd → nd.id = (i : Int)) := by
  intro nf af tf vf pf ff net h
  have hfst : ∀ i : Nat, (net.nodes[i]?).map Node.id = ((nf.getD [])[i]?).map NodeRec.id := by
    intro i
    have hiv := mkNetwork_nodes_idval h i
    have h2 := congrArg (Option.map Prod.fst) hiv
    simp only [Option.map_map] at h2
    have hl : (Prod.fst ∘ nodeIdVal) = Node.id := by
      funext nd; rfl
    rw [hl] at h2
    rw [h2, List.getElem?_map, Option.map_map]
    rfl
  refine ⟨hfst, ?_⟩
  intro hids i nd hnd
  have := hfst i
  rw [hnd] at this
  cases hr : (nf.getD [])[i]? with
  | none => rw [hr] at this; exact Option.noConfusion this
  | some r =>
    rw [hr] at this
    simp only [Option.map_some', Option.some.injEq] at this
    rw [this]
    exact hids i r hr

/-- C7 amended-theorem witness at a concrete input whose record ids equal
their positions. -/
theorem C7_ids_witness :
    ∃ net, mkNetwork (some [⟨0, STOP_NODE, 0⟩, ⟨1, FACILITY_NODE, 0⟩]) none none none none none
        = some net ∧
      ∀ i : Nat, ∀ nd : Node, net.nodes[i]? = some nd → nd.id = (i : Int) := by
  have hsome : (mkNetwork (some [⟨0, STOP_NODE, 0⟩, ⟨1, FACILITY_NODE, 0⟩])
      none none none none none).isSome = true := rfl
  obtain ⟨net, hnet⟩ := Option.isSome_iff_exists.mp hsome
  refine ⟨net, hnet, (C7_ids_amended _ _ _ _ _ _ net hnet).2 ?_⟩
  intro i r hr
  rcases i with _ | _ | i
  · cases hr; rfl
  · cases hr; rfl
  · exact Option.noConfusion hr

/-- C1 counterexample: an arc record with in-range endpoints and a negative
cost of -5 is accepted - construction succeeds and stores the negative
cost, instead of failing fatally as the claim states. -/
theorem C1_counterexample :
    ∃ net, mkNetwork (some [⟨0, STOP_NODE, 0⟩, ⟨1, FACILITY_NODE, 0⟩])
        (some [⟨0, WALKING_ARC, -1, 0, 1, -5⟩]) none none none none = some net ∧
      (net.arcs[0]?).map Arc.cost = some (-5) ∧ (-5 : ℚ) < 0 := by
  have hsome : (mkNetwork (some [⟨0, STOP_NODE, 0⟩, ⟨1, FACILITY_NODE, 0⟩])
      (some [⟨0, WALKING_ARC, -1, 0, 1, -5⟩]) none none none none).isSome = true := rfl
  obtain ⟨net, hnet⟩ := Option.isSome_iff_exists.mp hsome
  have h1 : (mkNetwork (some [⟨0, STOP_NODE, 0⟩, ⟨1, FACILITY_NODE, 0⟩])
      (some [⟨0, WALKING_ARC, -1, 0, 1, -5⟩]) none none none none).map
      (fun n => (n.arcs[0]?).map Arc.cost) = some (some (-5)) := rfl
  rw [hnet] at h1
  simp only [Option.map_some', Option.some.injEq] at h1
  exact ⟨net, hnet, h1, by norm_num⟩

/-- C1 (amended): the constructor performs no validation at all - it
succeeds for every input whose subscripts are in range (arc endpoints, the
line subscript of line/boarding arcs, and flow-record ids within the
core-arc count), regardless of the sign of any arc cost; an out-of-range
subscript is undefined behaviour in the C++ (modelled as failure), not a
clean GraphIntegrityError, and negative costs are silently stored. -/
theorem C1_no_validation : ∀ (nf : Option (List NodeRec)) (af : Option (List ArcRec))
    (tf : Option (List TransitRec)) (vf : Option (List VehicleRec)) (pf : Option ℚ)
    (ff : Option (List FlowRec)),
    (∀ r ∈ (af.getD [] : List ArcRec), arcOk (nf.getD []).length (tf.getD []).length r) →
    (∀ r ∈ (ff.getD [] : List FlowRec),
      0 ≤ r.id ∧ r.id.toNat < (af.getD []).countP isCoreArcRec) →
    ∃ net, mkNetwork nf af tf vf pf ff = some net := by
  intro nf af tf vf pf ff ha hf
  exact Option.isSome_iff_exists.mp (mkNetwork_isSome ha hf)

/-- C1 amended-theorem witness: the validity hypotheses hold at a concrete
input that contains a negative-cost arc, and construction succeeds there. -/
theorem C1_witness :
    (∀ r ∈ ([⟨0, WALKING_ARC, -1, 0, 1, -5⟩] : List ArcRec), arcOk 2 0 r) ∧
    (∃ net, mkNetwork (some [⟨0, STOP_NODE, 0⟩, ⟨1, FACILITY_NODE, 0⟩])
      (some [⟨0, WALKING_ARC, -1, 0, 1, -5⟩]) none none none none = some net) :=
  ⟨by decide, C1_no_validation _ _ _ _ _ _ (by decide) (by decide)⟩

/-- C5: every boarding or alighting arc record is stored with its input cost
plus the positive constant EPSILON, and every other arc record is stored
with its input cost unchanged. -/
theorem C5_epsilon_cost : ∀ (nf : Option (List NodeRec)) (af : Option (List ArcRec))
    (tf : Option (List TransitRec)) (vf : Option (List VehicleRec)) (pf : Option ℚ)
    (ff : Option (List FlowRec)) (net : Network),
    mkNetwork nf af tf vf pf ff = some net →
    0 < EPSILON ∧
    ∀ i : Nat, ∀ r : ArcRec, (af.getD [])[i]? = some r →
      (net.arcs[i]?).map Arc.cost =
        some (if r.type = BOARDING_ARC ∨ r.type = ALIGHTING_ARC then r.time + EPSILON
              else r.time) := by
  intro nf af tf vf pf ff net h
  refine ⟨by norm_num [EPSILON], ?_⟩
  intro i r hr
  have hstrip := mkNetwork_arcs_strip h i
  have h2 := congrArg (Option.map Arc.cost) hstrip
  have hl : (Arc.cost ∘ stripFlow) = Arc.cost := by
    funext a; rfl
  rw [Option.map_map, hl] at h2
  rw [h2, List.getElem?_map, hr]
  rfl

/-- C5 witness: a concrete boarding arc of time 3 is stored with cost
3 + EPSILON. -/
theorem C5_witness :
    ∃ net, mkNetwork (some [⟨0, STOP_NODE, 0⟩, ⟨1, BOARDING_NODE, 0⟩])
        (some [⟨7, BOARDING_ARC, 0, 0, 1, 3⟩]) (some [⟨0, 4, 60, 1, "A"⟩])
        none none none = some net ∧
      (net.arcs[0]?).map Arc.cost = some (3 + EPSILON) ∧ 0 < EPSILON := by
  have hsome : (mkNetwork (some [⟨0, STOP_NODE, 0⟩, ⟨1, BOARDING_NODE, 0⟩])
      (some [⟨7, BOARDING_ARC, 0, 0, 1, 3⟩]) (some [⟨0, 4, 60, 1, "A"⟩])
      none none none).isSome = true := rfl
  obtain ⟨net, hnet⟩ := Option.isSome_iff_exists.mp hsome
  obtain ⟨heps, hcost⟩ := C5_epsilon_cost _ _ _ _ _ _ net hnet
  have h0 := hcost 0 ⟨7, BOARDING_ARC, 0, 0, 1, 3⟩ rfl
  rw [if_pos (Or.inl rfl)] at h0
  exact ⟨net, hnet, h0, heps⟩

theorem posIdx_filter_corr {p : α → Bool} : ∀ (n : Nat) (rs : List α) (k : Nat) (i : Nat),
    (posIdx p n rs)[k]? = some i →
    ∃ r, rs[i - n]? = some r ∧ p r = true ∧ (rs.filter p)[k]? = some r := by
  intro n rs
  induction rs generalizing n with
  | nil => intro k i h; simp [posIdx] at h
  | cons r rs ih =>
    intro k i h
    by_cases hp : p r = true
    · simp only [posIdx, hp, if_pos, List.singleton_append] at h
      cases k with
      | zero =>
        simp only [List.getElem?_cons_zero, Option.some.injEq] at h
        subst h
        refine ⟨r, ?_, hp, ?_⟩
        · simp
        · simp [List.filter_cons, hp]
      | succ k2 =>
        simp only [List.getElem?_cons_succ] at h
        obtain ⟨r2, hg, hp2, hf⟩ := ih (n + 1) k2 i h
        have hge : n + 1 ≤ i := posIdx_ge (List.getElem?_mem h)
        refine ⟨r2, ?_, hp2, ?_⟩
        · have hd : i - n = (i - (n + 1)) + 1 := by omega
          rw [hd]
          simpa using hg
        · simp [List.filter_cons, hp, hf]
    · simp only [posIdx, hp, List.nil_append] at h
      simp only [Bool.not_eq_true] at hp
      obtain ⟨r2, hg, hp2, hf⟩ := ih (n + 1) k i h
      have hge : n + 1 ≤ i := posIdx_ge (List.getElem?_mem h)
      refine ⟨r2, ?_, hp2, ?_⟩
      · have hd : i - n = (i - (n + 1)) + 1 := by omega
        rw [hd]
        simpa using hg
      · simp [List.filter_cons, hp, hf]

/-- C9: each line's stops list has exactly one entry per boarding arc of that
line, namely the tail node index of that boarding arc, in arc-file order
and without deduplication. -/
theorem C9_line_stops : ∀ (nf : Option (List NodeRec)) (af : Option (List ArcRec))
    (tf : Option (List TransitRec)) (vf : Option (List VehicleRec)) (pf : Option ℚ)
    (ff : Option (List FlowRec)) (net : Network),
    mkNetwork nf af tf vf pf ff = some net →
    ∀ l : Nat, ∀ L : Line, net.lines[l]? = some L →
      L.stops = stopsOfRecs l (af.getD []) ∧
      L.boarding = posIdx (isBoardingOfRec l) 0 (af.getD []) ∧
      L.stops.length = L.boarding.length ∧
      (∀ k : Nat, ∀ ai : Nat, L.boarding[k]? = some ai →
        (net.arcs[ai]?).map Arc.tail = L.stops[k]?) := by
  intro nf af tf vf pf ff net h l L hL
  have hlg := mkNetwork_lines_get h l
  rw [hL] at hlg
  cases hr : (tf.getD [])[l]? with
  | none => rw [hr] at hlg; exact Option.noConfusion hlg
  | some r =>
    rw [hr] at hlg
    simp only [Option.map_some', Option.some.injEq] at hlg
    have hstops : L.stops = stopsOfRecs l (af.getD []) := by rw [hlg]
    have hboard : L.boarding = posIdx (isBoardingOfRec l) 0 (af.getD []) := by rw [hlg]
    refine ⟨hstops, hboard, ?_, ?_⟩
    · rw [hstops, hboard, stopsOfRecs, posIdx_length, List.length_map,
        List.countP_eq_length_filter]
    · intro k ai hk
      rw [hboard] at hk
      obtain ⟨r2, hg, hp2, hf⟩ := posIdx_filter_corr 0 (af.getD []) k ai hk
      simp only [Nat.sub_zero] at hg
      have hstrip := mkNetwork_arcs_strip h ai
      have h2 := congrArg (Option.map Arc.tail) hstrip
      have hcomp : (Arc.tail ∘ stripFlow) = Arc.tail := by funext a; rfl
      rw [Option.map_map, hcomp] at h2
      rw [h2, List.getElem?_map, hg]
      rw [hstops, stopsOfRecs, List.getElem?_map, hf]
      rfl

/-- C9 witness: two boarding arcs of line 0 with the same tail produce the
stops list with that tail twice - one entry per boarding arc, undeduplicated. -/
theorem C9_witness :
    ∃ net, mkNetwork (some [⟨0, STOP_NODE, 0⟩, ⟨1, BOARDING_NODE, 0⟩])
        (some [⟨0, BOARDING_ARC, 0, 0, 1, 1⟩, ⟨1, BOARDING_ARC, 0, 0, 1, 2⟩])
        (some [⟨0, 4, 60, 1, "A"⟩]) none none none = some net ∧
      ∃ L, net.lines[0]? = some L ∧
        L.stops = stopsOfRecs 0 [⟨0, BOARDING_ARC, 0, 0, 1, 1⟩, ⟨1, BOARDING_ARC, 0, 0, 1, 2⟩] ∧
        L.stops = [0, 0] := by
  have hsome : (mkNetwork (some [⟨0, STOP_NODE, 0⟩, ⟨1, BOARDING_NODE, 0⟩])
      (some [⟨0, BOARDING_ARC, 0, 0, 1, 1⟩, ⟨1, BOARDING_ARC, 0, 0, 1, 2⟩])
      (some [⟨0, 4, 60, 1, "A"⟩]) none none none).isSome = true := rfl
  obtain ⟨net, hnet⟩ := Option.isSome_iff_exists.mp hsome
  have hLsome : ((mkNetwork (some [⟨0, STOP_NODE, 0⟩, ⟨1, BOARDING_NODE, 0⟩])
      (some [⟨0, BOARDING_ARC, 0, 0, 1, 1⟩, ⟨1, BOARDING_ARC, 0, 0, 1, 2⟩])
      (some [⟨0, 4, 60, 1, "A"⟩]) none none none).map
        (fun n => (n.lines[0]?).isSome)) = some true := rfl
  rw [hnet] at hLsome
  simp only [Option.map_some', Option.some.injEq] at hLsome
  obtain ⟨L, hL⟩ := Option.isSome_iff_exists.mp hLsome
  have hc := C9_line_stops _ _ _ _ _ _ net hnet 0 L hL
  refine ⟨net, hnet, L, hL, hc.1, ?_⟩
  rw [hc.1]
  rfl

/-- C8: flow records set exactly the flow field of the arc at the named
position of the core-arc collection; every other field of every arc, and
the flow of every arc not named by a record, is unchanged from the value
the arc file produced; access arcs keep their initial flow of 0. -/
theorem C8_flow_frame : ∀ (nf : Option (List NodeRec)) (af : Option (List ArcRec))
    (tf : Option (List TransitRec)) (vf : Option (List VehicleRec)) (pf : Option ℚ)
    (ff : Option (List FlowRec)) (net : Network),
    mkNetwork nf af tf vf pf ff = some net →
    ((ff.getD []).map FlowRec.id).Nodup →
    (∀ r ∈ (ff.getD [] : List FlowRec), ∀ ai : Nat,
        net.core_arcs[r.id.toNat]? = some ai → 0 ≤ r.id →
        (net.arcs[ai]?).map Arc.flow = some r.flow) ∧
    (∀ i : Nat, (∀ r ∈ (ff.getD [] : List FlowRec),
        ¬(0 ≤ r.id ∧ net.core_arcs[r.id.toNat]? = some i)) →
        (net.arcs[i]?).map Arc.flow = (((af.getD []).map arcOfRec)[i]?).map Arc.flow) ∧
    (∀ i : Nat, (net.arcs[i]?).map stripFlow = ((af.getD []).map arcOfRec)[i]?) ∧
    (∀ i ∈ net.access_arcs, (net.arcs[i]?).map Arc.flow = some 0) := by
  intro nf af tf vf pf ff net h hnodup
  obtain ⟨hacc, hcore, _, _⟩ := mkNetwork_arc_roles h
  obtain ⟨s1, s2, h1, h2, hn⟩ := mkNetwork_parts h
  obtain ⟨harcs, _, _, _, _, hcore1, _, _⟩ := buildArcs_some (af.getD []) h1
  obtain ⟨_, _, _, hco2, _, _, _, hstrip2, hnot2⟩ := applyFlows_some (ff.getD []) h2
  simp only [List.nil_append, List.length_nil] at harcs hcore1
  have hnetarcs : net.arcs = s2.arcs := by rw [hn]
  have hnetcore : net.core_arcs = s1.core_arcs := by rw [hn]; exact hco2
  have hbound : ∀ j ∈ s1.core_arcs, j < s1.arcs.length := by
    intro j hj
    rw [hcore1] at hj
    rw [harcs]
    have := posIdx_lt hj
    simpa using this
  refine ⟨?_, ?_, ?_, ?_⟩
  · intro r hr ai hcai hid
    rw [hnetarcs]
    apply applyFlows_named (ff.getD []) h2 hnodup ?_ hbound r hr ai ?_ hid
    · rw [hcore1]; exact posIdx_nodup _ _ _
    · rw [← hnetcore]; exact hcai
  · intro i hnone
    rw [hnetarcs, hnot2 i ?_, harcs]
    intro r hr hbad
    exact hnone r hr ⟨hbad.1, by rw [hnetcore]; exact hbad.2⟩
  · exact fun i => mkNetwork_arcs_strip h i
  · intro i hi
    rw [hacc] at hi
    have hlt : i < (af.getD []).length := by
      have := posIdx_lt hi
      simpa using this
    have hnotnamed : ∀ r ∈ (ff.getD [] : List FlowRec),
        ¬(0 ≤ r.id ∧ net.core_arcs[r.id.toNat]? = some i) := by
      intro r hr hbad
      have hmem : i ∈ net.core_arcs := List.getElem?_mem hbad.2
      rw [hcore] at hmem
      exact posIdx_disjoint (by intro r2; simp [isAccessArcRec, isCoreArcRec]) 0
        (af.getD []) hi hmem
    rw [hnetarcs, hnot2 i ?_, harcs]
    · rw [List.getElem?_map, List.getElem?_eq_getElem hlt]
      rfl
    · intro r hr hbad
      exact hnotnamed r hr ⟨hbad.1, by rw [hnetcore]; exact hbad.2⟩

/-- C8 witness: a concrete flow record (id 0, flow 9) sets the flow of the
first core arc to 9, leaves the access arc's flow at 0, and changes no
other arc field. -/
theorem C8_witness :
    ∃ net, mkNetwork (some [⟨0, STOP_NODE, 0⟩, ⟨1, FACILITY_NODE, 0⟩])
        (some [⟨0, WALKING_ARC, -1, 0, 1, 5⟩, ⟨1, ACCESS_ARC, -1, 0, 1, 2⟩])
        none none none (some [⟨0, 9⟩]) = some net ∧
      (net.arcs[0]?).map Arc.flow = some 9 ∧
      (∀ i ∈ net.access_arcs, (net.arcs[i]?).map Arc.flow = some 0) := by
  have hsome : (mkNetwork (some [⟨0, STOP_NODE, 0⟩, ⟨1, FACILITY_NODE, 0⟩])
      (some [⟨0, WALKING_ARC, -1, 0, 1, 5⟩, ⟨1, ACCESS_ARC, -1, 0, 1, 2⟩])
      none none none (some [⟨0, 9⟩])).isSome = true := rfl
  obtain ⟨net, hnet⟩ := Option.isSome_iff_exists.mp hsome
  obtain ⟨hnamed, _, _, haccz⟩ := C8_flow_frame _ _ _ _ _ _ net hnet (by decide)
  have hcval : (mkNetwork (some [⟨0, STOP_NODE, 0⟩, ⟨1, FACILITY_NODE, 0⟩])
      (some [⟨0, WALKING_ARC, -1, 0, 1, 5⟩, ⟨1, ACCESS_ARC, -1, 0, 1, 2⟩])
      none none none (some [⟨0, 9⟩])).map
        (fun n => n.core_arcs[(0 : Int).toNat]?) = some (some 0) := rfl
  rw [hnet] at hcval
  simp only [Option.map_some', Option.some.injEq] at hcval
  refine ⟨net, hnet, ?_, haccz⟩
  exact hnamed ⟨0, 9⟩ (by simp) 0 hcval (by decide)

theorem buildArcs_isSome_mono (recs : List ArcRec) : ∀ {s t : BuildState},
    s.nodes.length = t.nodes.length → s.lines.length = t.lines.length →
    (buildArcs s recs).isSome = true → (buildArcs t recs).isSome = true := by
  induction recs with
  | nil => intro s t _ _ _; simp [buildArcs]
  | cons r rs ih =>
    intro s t hn hl hs
    simp only [buildArcs] at hs ⊢
    cases ha : addArc s r with
    | none => rw [ha] at hs; exact absurd hs (by simp)
    | some s1 =>
      rw [ha] at hs
      have hok : arcOk s.nodes.length s.lines.length r :=
        addArc_isSome.mp (by rw [ha]; rfl)
      have hokt : arcOk t.nodes.length t.lines.length r := by
        rw [← hn, ← hl]; exact hok
      obtain ⟨t1, ht1⟩ := Option.isSome_iff_exists.mp (addArc_isSome.mpr hokt)
      rw [ht1]
      obtain ⟨hsn, hsl⟩ := addArc_lens ha
      obtain ⟨htn, htl⟩ := addArc_lens ht1
      exact ih (by rw [hsn, htn, hn]) (by rw [hsl, htl, hl]) hs

theorem applyFlows_isSome_mono (recs : List FlowRec) : ∀ {s t : BuildState},
    s.core_arcs.length = t.core_arcs.length →
    (applyFlows s recs).isSome = true → (applyFlows t recs).isSome = true := by
  induction recs with
  | nil => intro s t _ _; simp [applyFlows]
  | cons r rs ih =>
    intro s t hc hs
    simp only [applyFlows] at hs ⊢
    cases ha : applyFlow s r with
    | none => rw [ha] at hs; exact absurd hs (by simp)
    | some s1 =>
      rw [ha] at hs
      have hok := applyFlow_isSome.mp (by rw [ha]; rfl)
      obtain ⟨t1, ht1⟩ := Option.isSome_iff_exists.mp
        (applyFlow_isSome.mpr ⟨hok.1, by rw [← hc]; exact hok.2⟩)
      rw [ht1]
      obtain ⟨ai, _, _, hse⟩ := applyFlow_some ha
      obtain ⟨ai2, _, _, hte⟩ := applyFlow_some ht1
      have hc1 : s1.core_arcs = s.core_arcs := by rw [hse]
      have hc2 : t1.core_arcs = t.core_arcs := by rw [hte]
      exact ih (by rw [hc1, hc2, hc]) hs

theorem mkNetwork_pf_isSome (nf : Option (List NodeRec)) (af : Option (List ArcRec))
    (tf : Option (List TransitRec)) (vf : Option (List VehicleRec))
    (ff : Option (List FlowRec)) (p1 p2 : Option ℚ) :
    (mkNetwork nf af tf vf p1 ff).isSome = true →
    (mkNetwork nf af tf vf p2 ff).isSome = true := by
  intro h
  obtain ⟨net, hnet⟩ := Option.isSome_iff_exists.mp h
  obtain ⟨s1, s2, h1, h2, _⟩ := mkNetwork_parts hnet
  have hs1 : (buildArcs ⟨(buildNodes (nf.getD [])).nodes,
      buildLines (p1.getD 1440) (buildSeating (vf.getD [])) (tf.getD []),
      [], [], [], [], []⟩ (af.getD [])).isSome = true := by
    rw [h1]; rfl
  have h1t : (buildArcs ⟨(buildNodes (nf.getD [])).nodes,
      buildLines (p2.getD 1440) (buildSeating (vf.getD [])) (tf.getD []),
      [], [], [], [], []⟩ (af.getD [])).isSome = true := by
    refine buildArcs_isSome_mono (af.getD []) ?_ ?_ hs1
    · rfl
    · simp [buildLines]
  obtain ⟨t1, ht1⟩ := Option.isSome_iff_exists.mp h1t
  obtain ⟨_, _, _, _, _, hcs, _, _⟩ := buildArcs_some (af.getD []) h1
  obtain ⟨_, _, _, _, _, hct, _, _⟩ := buildArcs_some (af.getD []) ht1
  have hs2 : (applyFlows s1 (ff.getD [])).isSome = true := by
    rw [h2]; rfl
  have h2t : (applyFlows t1 (ff.getD [])).isSome = true := by
    refine applyFlows_isSome_mono (ff.getD []) ?_ hs2
    rw [hcs, hct]
  obtain ⟨t2, ht2⟩ := Option.isSome_iff_exists.mp h2t
  simp only [mkNetwork, ht1, ht2, Option.isSome_some]

/-- C10 counterexample: with the node file failing to open but the arc file
present, the arc record subscripts the now-empty node collection -
undefined behaviour in the C++ (modelled as failure) - so a failed file
open does not always leave a fully constructed Network. -/
theorem C10_counterexample :
    mkNetwork none (some [⟨0, WALKING_ARC, -1, 0, 0, 1⟩]) none none none none = none := by
  rfl

/-- C10 (amended): a file that fails to open is skipped, never fatal by
itself: the problem file's absence never changes whether construction
succeeds and gives every Line the default day_horizon of 1440, and with
every input file missing the constructor still returns a fully built
(empty) Network; but data in the remaining files that references a skipped
file's (now empty) collections is undefined behaviour, modelled as
construction failure. -/
theorem C10_missing_files : ∀ (nf : Option (List NodeRec)) (af : Option (List ArcRec))
    (tf : Option (List TransitRec)) (vf : Option (List VehicleRec))
    (ff : Option (List FlowRec)) (net : Network),
    mkNetwork nf af tf vf none ff = some net →
    (∀ L ∈ net.lines, L.day_horizon = 1440) ∧
    (∀ pf : Option ℚ, (mkNetwork nf af tf vf pf ff).isSome = true) ∧
    (∃ net0, mkNetwork none none none none none none = some net0) := by
  intro nf af tf vf ff net h
  refine ⟨?_, ?_, ?_⟩
  case refine_2 =>
    intro pf
    exact mkNetwork_pf_isSome nf af tf vf ff none pf (by rw [h]; rfl)
  case refine_1 =>
    intro L hL
    obtain ⟨l, hl⟩ := List.mem_iff_getElem?.mp hL
    have hlg := mkNetwork_lines_get h l
    rw [hl] at hlg
    cases hr : (tf.getD [])[l]? with
    | none => rw [hr] at hlg; exact Option.noConfusion hlg
    | some r =>
      rw [hr] at hlg
      simp only [Option.map_some', Option.some.injEq] at hlg
      rw [hlg]
      rfl
  case refine_3 =>
    exact Option.isSome_iff_exists.mp (mkNetwork_isSome (by simp) (by simp))

/-- C10 witness: with the problem file missing, a concrete transit record
gets day_horizon 1440. -/
theorem C10_witness :
    ∃ net, mkNetwork none none (some [⟨0, 4, 60, 1, "A"⟩]) none none none = some net ∧
      (∀ L ∈ net.lines, L.day_horizon = 1440) ∧
      (net.lines.map Line.day_horizon) = [1440] := by
  have hsome : (mkNetwork none none (some [⟨0, 4, 60, 1, "A"⟩]) none none none).isSome
      = true := rfl
  obtain ⟨net, hnet⟩ := Option.isSome_iff_exists.mp hsome
  have hall := (C10_missing_files _ _ _ _ _ net hnet).1
  have hmap : (mkNetwork none none (some [⟨0, 4, 60, 1, "A"⟩]) none none none).map
      (fun n => n.lines.map Line.day_horizon) = some [1440] := rfl
  rw [hnet] at hmap
  simp only [Option.map_some', Option.some.injEq] at hmap
  exact ⟨net, hnet, hall, hmap⟩

/-- C2: line frequency is fleet/circuit, headway is circuit/fleet for a
positive fleet and +infinity for fleet 0, capacity is frequency times
day_fraction times day_horizon times seating; with fleet 4 and circuit 60
the frequency is 1/15, and additionally day_fraction 1/2, day_horizon 1440
and seating 40 give capacity 1920. -/
theorem C2_line_derived : ∀ L : Line,
    (L.frequency = (L.fleet : ℚ) / L.circuit) ∧
    (0 < L.fleet → L.headway = EDouble.fin (L.circuit / (L.fleet : ℚ))) ∧
    (L.fleet = 0 → L.headway = EDouble.inf) ∧
    (L.capacity = L.frequency * L.day_fraction * L.day_horizon * L.seating) ∧
    (L.fleet = 4 → L.circuit = 60 → L.frequency = 1 / 15) ∧
    (L.fleet = 4 → L.circuit = 60 → L.day_fraction = 1 / 2 → L.day_horizon = 1440 →
      L.seating = 40 → L.capacity = 1920) := by
  intro L
  refine ⟨rfl, ?_, ?_, rfl, ?_, ?_⟩
  · intro hpos
    simp [Line.headway, hpos]
  · intro hz
    simp [Line.headway, hz]
  · intro hf hc
    simp [Line.frequency, hf, hc]
    norm_num
  · intro hf hc hd hh hs
    simp [Line.capacity, Line.frequency, hf, hc, hd, hh, hs]
    norm_num

/-- C2 witness: the concrete line with circuit 60, seating 40, day_fraction
1/2, day_horizon 1440 and fleet 4 has frequency 1/15, headway 15 and
capacity 1920, and the fleet-0 variant has infinite headway. -/
theorem C2_witness :
    (Line.frequency ⟨60, 40, 1 / 2, 1440, 4, "A", [], [], []⟩ = 1 / 15) ∧
    (Line.headway ⟨60, 40, 1 / 2, 1440, 4, "A", [], [], []⟩ = EDouble.fin 15) ∧
    (Line.capacity ⟨60, 40, 1 / 2, 1440, 4, "A", [], [], []⟩ = 1920) ∧
    (Line.headway ⟨60, 40, 1 / 2, 1440, 0, "A", [], [], []⟩ = EDouble.inf) := by
  obtain ⟨hf, hh, hz, hc, hfreq, hcap⟩ := C2_line_derived ⟨60, 40, 1 / 2, 1440, 4, "A", [], [], []⟩
  obtain ⟨_, _, hz0, _, _, _⟩ := C2_line_derived ⟨60, 40, 1 / 2, 1440, 0, "A", [], [], []⟩
  refine ⟨hfreq rfl rfl, ?_, hcap rfl rfl rfl rfl rfl, hz0 rfl⟩
  rw [hh (by norm_num)]
  norm_num

theorem relaxArc_length (d : List EDouble) (a : Arc) : (relaxArc d a).length = d.length := by
  unfold relaxArc
  split
  · split_ifs <;> simp [updNth_length]
  · rfl

theorem relaxRound_length (arcs : List Arc) : ∀ d : List EDouble,
    (relaxRound arcs d).length = d.length := by
  induction arcs with
  | nil => intro d; rfl
  | cons a as ih =>
    intro d
    show (relaxRound as (relaxArc d a)).length = d.length
    rw [ih, relaxArc_length]

theorem relaxN_length (k : Nat) : ∀ (arcs : List Arc) (d : List EDouble),
    (relaxN k arcs d).length = d.length := by
  induction k with
  | zero => intro arcs d; rfl
  | succ k2 ih =>
    intro arcs d
    show (relaxN k2 arcs (relaxRound arcs d)).length = d.length
    rw [ih, relaxRound_length]

theorem initDist_length (n src : Nat) : (initDist n src).length = n := by
  simp [initDist]

theorem shortestDistances_length (n : Nat) (arcs : List Arc) (src : Nat) :
    (shortestDistances n arcs src).length = n := by
  unfold shortestDistances
  rw [relaxN_length, initDist_length]

/-- Soundness invariant of the relaxation: every finite tentative distance
belongs to a node reachable from the source. -/
def SafeDist (arcs : List Arc) (src : Nat) (d : List EDouble) : Prop :=
  ∀ v : Nat, ∀ dv, d[v]? = some dv → ¬ dv = EDouble.inf → Reaches arcs src v

theorem relaxArc_safe {arcs : List Arc} {src : Nat} {d : List EDouble} {a : Arc}
    (ha : a ∈ arcs) (hd : SafeDist arcs src d) : SafeDist arcs src (relaxArc d a) := by
  intro v dv hget hne
  unfold relaxArc at hget
  split at hget
  · rename_i dt dh h1 h2
    split_ifs at hget with hblt
    · rw [getElem?_updNth] at hget
      by_cases hv : a.head = v
      · rw [if_pos hv] at hget
        cases hdv : d[v]? with
        | none => rw [hdv] at hget; exact Option.noConfusion hget
        | some old =>
          rw [hdv] at hget
          simp only [Option.map_some', Option.some.injEq] at hget
          have hdtfin : ¬ dt = EDouble.inf := by
            intro hinf
            rw [hinf] at hget
            exact hne hget.symm
          have htail : Reaches arcs src a.tail := hd a.tail dt h1 hdtfin
          exact Relation.ReflTransGen.tail htail ⟨a, ha, rfl, hv⟩
      · rw [if_neg hv] at hget
        exact hd v dv hget hne
    · exact hd v dv hget hne
  · exact hd v dv hget hne

theorem relaxList_safe (l : List Arc) : ∀ {arcs : List Arc} {src : Nat} {d : List EDouble},
    (∀ a ∈ l, a ∈ arcs) → SafeDist arcs src d → SafeDist arcs src (l.foldl relaxArc d) := by
  induction l with
  | nil => intro arcs src d _ hd; exact hd
  | cons a as ih =>
    intro arcs src d hsub hd
    show SafeDist arcs src (as.foldl relaxArc (relaxArc d a))
    exact ih (fun a2 ha2 => hsub a2 (by simp [ha2]))
      (relaxArc_safe (hsub a (by simp)) hd)

theorem relaxRound_safe {arcs : List Arc} {src : Nat} {d : List EDouble}
    (hd : SafeDist arcs src d) : SafeDist arcs src (relaxRound arcs d) :=
  relaxList_safe arcs (fun _ ha => ha) hd

theorem relaxN_safe (k : Nat) : ∀ {arcs : List Arc} {src : Nat} {d : List EDouble},
    SafeDist arcs src d → SafeDist arcs src (relaxN k arcs d) := by
  induction k with
  | zero => intro arcs src d hd; exact hd
  | succ k2 ih =>
    intro arcs src d hd
    exact ih (relaxRound_safe hd)

theorem initDist_safe (arcs : List Arc) (n src : Nat) :
    SafeDist arcs src (initDist n src) := by
  intro v dv hget hne
  unfold initDist at hget
  rw [List.getElem?_map] at hget
  by_cases hv : v < n
  · rw [List.getElem?_range hv] at hget
    simp only [Option.map_some', Option.some.injEq] at hget
    by_cases hvs : v = src
    · subst hvs
      exact Relation.ReflTransGen.refl
    · rw [if_neg hvs] at hget
      exact absurd hget.symm hne
  · rw [List.getElem?_eq_none (by simpa using hv)] at hget
    exact Option.noConfusion hget

/-- The node at unreached position v keeps distance infinity. -/
theorem shortestDistances_unreachable {n : Nat} {arcs : List Arc} {src v : Nat}
    (hv : v < n) (hur : ¬ Reaches arcs src v) :
    (shortestDistances n arcs src)[v]? = some EDouble.inf := by
  have hsafe : SafeDist arcs src (shortestDistances n arcs src) :=
    relaxN_safe n (initDist_safe arcs n src)
  have hlen : (shortestDistances n arcs src).length = n := shortestDistances_length n arcs src
  cases hget : (shortestDistances n arcs src)[v]? with
  | none =>
    rw [List.getElem?_eq_none_iff] at hget
    omega
  | some dv =>
    cases dv with
    | inf => rfl
    | fin q =>
      exact absurd (hsafe v (EDouble.fin q) hget (by intro h; exact EDouble.noConfusion h)) hur

theorem not_reaches_empty (u v : Nat) (huv : ¬ u = v) : ¬ Reaches [] u v := by
  intro h
  rcases Relation.ReflTransGen.cases_head h with he | ⟨c, hstep, _⟩
  · exact huv he
  · obtain ⟨a, ha, _⟩ := hstep
    exact absurd ha (List.not_mem_nil a)

theorem foldl_add_zero (K : List Nat) (g : Nat → ℚ) : ∀ c : ℚ,
    (∀ j ∈ K, g j = 0) → K.foldl (fun acc j => acc + g j) c = c := by
  induction K with
  | nil => intro c _; rfl
  | cons j js ih =>
    intro c hz
    show js.foldl (fun acc j => acc + g j) (c + g j) = c
    rw [hz j (by simp), add_zero]
    exact ih c (fun j2 hj2 => hz j2 (by simp [hj2]))

theorem stopToFacilities_all_inf {net : Network} {univ : List Arc} {i : Nat}
    (hur : ∀ f ∈ net.facility_nodes, ¬ Reaches univ ((net.stop_nodes[i]?).getD 0) f) :
    ∀ j : Nat, ((stopToFacilities net univ i)[j]?).getD EDouble.inf = EDouble.inf := by
  intro j
  unfold stopToFacilities
  rw [List.getElem?_map]
  cases hf : net.facility_nodes[j]? with
  | none => rfl
  | some f =>
    simp only [Option.map_some', Option.getD_some]
    by_cases hlt : f < net.nodes.length
    · rw [shortestDistances_unreachable hlt (hur f (List.getElem?_mem hf))]
      rfl
    · rw [List.getElem?_eq_none (by rw [shortestDistances_length]; omega)]
      rfl

theorem stop_metric_zero {O : Objective} {net : Network} {univ : List Arc} {i : Nat}
    (hur : ∀ f ∈ net.facility_nodes, ¬ Reaches univ ((net.stop_nodes[i]?).getD 0) f) :
    stop_metric O net univ i = 0 := by
  simp only [stop_metric]
  rw [foldl_add_zero _ _ 0 ?_, mul_zero]
  intro j _
  rw [stopToFacilities_all_inf hur j]
  simp [facilityContribution, impedance]

/-- C4: in the shortest-path and aggregation model, every node unreachable
from the source keeps distance +infinity; a facility at infinite or zero
distance contributes exactly 0 (the rational model has no NaN and raises no
error); consequently a stop from which no facility is reachable has
stop_metric 0. -/
theorem C4_unreachable_zero :
    (∀ (n : Nat) (univ : List Arc) (src v : Nat), v < n → ¬ Reaches univ src v →
      (shortestDistances n univ src)[v]? = some EDouble.inf) ∧
    (∀ (g : Int) (value : ℚ), facilityContribution g value EDouble.inf = 0 ∧
      facilityContribution g value (EDouble.fin 0) = 0) ∧
    (∀ (O : Objective) (net : Network) (univ : List Arc) (i : Nat),
      (∀ f ∈ net.facility_nodes, ¬ Reaches univ ((net.stop_nodes[i]?).getD 0) f) →
      stop_metric O net univ i = 0) := by
  refine ⟨?_, ?_, ?_⟩
  · intro n univ src v hv hur
    exact shortestDistances_unreachable hv hur
  · intro g value
    constructor
    · simp [facilityContribution, impedance]
    · simp [facilityContribution, impedance]
  · intro O net univ i hur
    exact stop_metric_zero hur

/-- C4 witness: in a two-node network with no arcs, node 1 is unreachable
from node 0 and gets distance infinity; an infinite-distance facility of
value 10 contributes 0; the stop with its only facility unreachable has
stop_metric 0. -/
theorem C4_witness :
    (shortestDistances 2 [] 0)[1]? = some EDouble.inf ∧
    facilityContribution 1 10 EDouble.inf = 0 ∧
    stop_metric ⟨1, 1, 1⟩
      ⟨[⟨0, 0, [], [], []⟩, ⟨1, 10, [], [], []⟩], [], [], [0], [], [], [1], [0],
       [], [], [], []⟩ [] 0 = 0 := by
  obtain ⟨hdist, hcontrib, hmetric⟩ := C4_unreachable_zero
  refine ⟨hdist 2 [] 0 1 (by decide) (not_reaches_empty 0 1 (by decide)), (hcontrib 1 10).1, ?_⟩
  apply hmetric
  intro f hf
  have hf1 : f = 1 := by
    simpa using hf
  subst hf1
  exact not_reaches_empty 0 1 (by decide)

/-- C3: all_metrics returns a dense sequence of length equal to the number
of stop nodes, whose i-th entry is exactly the stop_metric of the i-th stop
in stop-list order. -/
theorem C3_all_metrics : ∀ (O : Objective) (net : Network) (univ : List Arc),
    (all_metrics O net univ).length = net.stop_nodes.length ∧
    ∀ i : Nat, i < net.stop_nodes.length →
      (all_metrics O net univ)[i]? = some (stop_metric O net univ i) := by
  intro O net univ
  constructor
  · simp [all_metrics]
  · intro i hi
    unfold all_metrics
    rw [List.getElem?_map, List.getElem?_range hi]
    rfl

/-- C3 witness: the one-stop network gives a length-1 sequence whose entry 0
is that stop's metric. -/
theorem C3_witness :
    (all_metrics ⟨1, 1, 1⟩
      ⟨[⟨0, 0, [], [], []⟩, ⟨1, 10, [], [], []⟩], [], [], [0], [], [], [1], [0],
       [], [], [], []⟩ []).length = 1 ∧
    (all_metrics ⟨1, 1, 1⟩
      ⟨[⟨0, 0, [], [], []⟩, ⟨1, 10, [], [], []⟩], [], [], [0], [], [], [1], [0],
       [], [], [], []⟩ [])[0]? =
      some (stop_metric ⟨1, 1, 1⟩
        ⟨[⟨0, 0, [], [], []⟩, ⟨1, 10, [], [], []⟩], [], [], [0], [], [], [1], [0],
         [], [], [], []⟩ [] 0) := by
  obtain ⟨hlen, hidx⟩ := C3_all_metrics ⟨1, 1, 1⟩
    ⟨[⟨0, 0, [], [], []⟩, ⟨1, 10, [], [], []⟩], [], [], [0], [], [], [1], [0],
     [], [], [], []⟩ []
  exact ⟨hlen, hidx 0 (by decide)⟩

end SocialTransit
